import Mathlib

/-!
Verification development for `anyCSV_reader.py`, a CSV-to-SQLite import and
search tool.  The Python source is shallowly embedded below: pure helpers
become Lean functions, the per-file import pipeline becomes explicit state
passing over a `DBState` record, and the external collaborators (SHA-256,
the pandas CSV parser, the SQLite engine) are modelled by executable Lean
functions whose deliberate idealizations are stated in their doc comments.
-/

namespace AnyCSV

/-- Idealized stand-in for `hashlib.sha256(...).hexdigest()`.  The program
only ever compares digests for equality, so SHA-256 is modelled as an
injective (indeed, identity) function on strings: two inputs have equal
digests exactly when the inputs are equal.  Real SHA-256 collisions are
assumed not to occur. -/
def digest (s : String) : String := s

/-- Digest of a row, per line 90 / line 116 of the source:
`hashlib.sha256("".join(row).encode()).hexdigest()` — the string-coerced
cell values are concatenated with no separator and hashed. -/
def rowHash (r : List String) : String := digest (String.join r)

/-- Splits a character list at every character satisfying `p`. -/
def splitBy (p : Char → Bool) : List Char → List (List Char)
  | [] => [[]]
  | c :: cs =>
    let rest := splitBy p cs
    if p c then [] :: rest
    else
      match rest with
      | [] => [[c]]
      | x :: xs => (c :: x) :: xs

/-- Splits a character list at every occurrence of the separator character.
Models Python `str.split(sep)` for a one-character separator (always
returns at least one piece; adjacent separators yield empty pieces). -/
def splitCh (sep : Char) (cs : List Char) : List (List Char) :=
  splitBy (fun c => c = sep) cs

/-- Splits a string on a one-character separator. -/
def splitStr (sep : Char) (s : String) : List String :=
  (splitCh sep s.toList).map (fun cs => String.mk cs)

/-- Joins strings with a separator string between consecutive elements.
Models Python `sep.join(xs)`. -/
def joinWith (sep : String) : List String → String
  | [] => ""
  | [s] => s
  | s :: s' :: rest => s ++ sep ++ joinWith sep (s' :: rest)

/-- Namespace prefixing constant for data tables, `TABLE_PREFIX` in the
source (line 11). -/
def tableNamePfx : String := "csv_table_"

/-- Final path component, modelling `os.path.basename` for paths with `/`
separators. -/
def pyBasename (p : String) : String :=
  ((splitStr '/' p).getLastD p)

/-- Stem of a file name, modelling `os.path.splitext(...)[0]`: everything
before the last dot, except that a name whose characters before its last
dot are all dots (such as `.csv` or `..`) has no extension. -/
def stemOf (cs : List Char) : List Char :=
  match (cs.reverse).dropWhile (fun c => c ≠ '.') with
  | '.' :: beforeRev =>
    if beforeRev.any (fun c => c ≠ '.') then beforeRev.reverse else cs
  | _ => cs

/-- Word characters of Python's regex class `\w` (with `re.UNICODE`, the
default for `str` patterns), restricted to code points below `U+0100` —
the only code points appearing in this development.  Below `U+0100`,
Python counts the ASCII letters, digits and underscore, plus the Latin-1
letters `ª µ º À–Ö Ø–ö ø–ÿ` (everything in `C0–FF` except the two signs
`×` and `÷`). -/
def pyIsWordChar (c : Char) : Bool :=
  c.isAlphanum || c = '_' ||
  (0xC0 ≤ c.toNat && c.toNat ≤ 0xFF && c.toNat ≠ 0xD7 && c.toNat ≠ 0xF7) ||
  c.toNat = 0xAA || c.toNat = 0xB5 || c.toNat = 0xBA

/-- Lowercasing of a character, modelling Python `str.lower()` on code
points below `U+0100`: ASCII `A–Z` and the Latin-1 capitals `À–Þ` (except
`×`) move down by 32; everything else in this range is unchanged. -/
def pyLower (c : Char) : Char :=
  if c.isUpper then c.toLower
  else if 0xC0 ≤ c.toNat && c.toNat ≤ 0xDE && c.toNat ≠ 0xD7 then
    Char.ofNat (c.toNat + 32)
  else c

/-- Table-name derivation, modelling `generate_table_name` (lines 37-40):
take the basename, drop the extension, replace every character that is not
a `\w` word character by an underscore (`re.sub(r'[^\w]', '_', name)`),
lowercase, and prepend `TABLE_PREFIX`. -/
def generate_table_name (p : String) : String :=
  let name := stemOf (pyBasename p).toList
  let name := name.map (fun c => if pyIsWordChar c then c else '_')
  tableNamePfx ++ String.mk (name.map pyLower)

/-- Transformation that claim C8 (and section 4.3 of the specification)
describes: identical to `generate_table_name` except that the characters
kept are exactly `[A-Za-z0-9_]`, every other character being replaced by
an underscore. -/
def claimed_table_name (p : String) : String :=
  let name := stemOf (pyBasename p).toList
  let name := name.map (fun c => if c.isAlphanum || c = '_' then c else '_')
  tableNamePfx ++ String.mk (name.map pyLower)

/-! ## CSV parsing model (pandas `read_csv` as used by the source) -/

/-- Logical lines of a file's text: split on newlines, dropping blank
lines (pandas `skip_blank_lines=True`, the default). -/
def csvLines (c : String) : List String :=
  (splitStr '\n' c).filter (fun l => l ≠ "")

/-- Fields of one CSV line under a one-character delimiter.  Quoting is
not modelled; no input in this development contains quote characters. -/
def splitFields (delim : Char) (line : String) : List String :=
  splitStr delim line

/-- Row conformance of the pandas python engine with
`on_bad_lines='skip'`: a line with more fields than the expected width is
skipped; a line with fewer fields is padded at the end (pandas pads with
NaN; the pad value is modelled as the empty string, and no result below
depends on it). -/
def conformRow (n : Nat) (fs : List String) : Option (List String) :=
  if fs.length > n then none
  else some (fs ++ List.replicate (n - fs.length) "")

/-- Column-name assignment pandas performs on a header row read with
`header=0`: an empty header field at 0-based position `i` becomes
`Unnamed: i`; other fields are kept verbatim.  (Duplicate header names,
which pandas would suffix with `.1`, do not occur in this development.) -/
def pandasHeaderName (i : Nat) (s : String) : String :=
  if s = "" then "Unnamed: " ++ toString i else s

/-- Parsed frame: ordered column names and rows of string cells. -/
structure DF where
  columns : List String
  rows : List (List String)
deriving Repr, DecidableEq

/-- Model of `pd.read_csv(f, dtype=str, delimiter=d, header=0|None,
on_bad_lines='skip', engine='python')`.  `none` models the
`EmptyDataError` raised on a file with no parseable lines.  The expected
width is the field count of the first line; with `header=0` the first
line supplies the column names, otherwise pandas numbers the columns
`0..n-1`. -/
def pdReadCsv (delim : Char) (hdr : Bool) (c : String) : Option DF :=
  match csvLines c with
  | [] => none
  | l :: ls =>
    let fs := splitFields delim l
    let n := fs.length
    if hdr then
      some ⟨(fs.enum).map (fun p => pandasHeaderName p.1 p.2),
            ls.filterMap (fun l' => conformRow n (splitFields delim l'))⟩
    else
      some ⟨(List.range n).map (fun i => toString i),
            (l :: ls).filterMap (fun l' => conformRow n (splitFields delim l'))⟩

/-! ## Database state -/

/-- Stored table: ordered column names (the `_hash` column included, in
creation order) and rows aligned with them. -/
structure Table where
  columns : List String
  rows : List (List String)
deriving Repr, DecidableEq

/-- Whole persistent state plus the process-wide mutable
`common_column_count` list (line 13 of the source; `ccc` here). -/
structure DBState where
  ledger : List (String × String)
  tables : List (String × Table)
  ccc : List Nat
deriving Repr, DecidableEq

/-- Table lookup by name. -/
def tableLookup (st : DBState) (name : String) : Option Table :=
  (st.tables.find? (fun e => e.1 = name)).map (fun e => e.2)

/-- Model of `INSERT OR REPLACE INTO imported_files` (lines 106/130):
any previous entries for the filename are replaced. -/
def ledgerPut (st : DBState) (name h : String) : DBState :=
  { st with ledger := (name, h) :: st.ledger.filter (fun e => e.1 ≠ name) }

/-- Model of `CREATE TABLE IF NOT EXISTS` (lines 94/119): a no-op when a
table of that name exists (whatever its columns); otherwise the table is
created empty with the given columns. -/
def createTableIfAbsent (st : DBState) (name : String) (cols : List String) : DBState :=
  match tableLookup st name with
  | some _ => st
  | none => { st with tables := st.tables ++ [(name, ⟨cols, []⟩)] }

/-- Low-level write: appends already-aligned rows to the named table.
Used by the `to_sql` model below after it has resolved the DataFrame's
columns against the stored table's. -/
def appendRows (st : DBState) (name : String) (newRows : List (List String)) : DBState :=
  { st with
    tables := st.tables.map (fun e =>
      if e.1 = name then (e.1, ⟨e.2.columns, e.2.rows ++ newRows⟩) else e) }

/-- One row as SQLite stores it: pandas emits
`INSERT INTO t (<df columns>) VALUES (...)`, so each stored row is laid
out in the TABLE's column order, taking the value from the DataFrame
column of the same name and NULL (modelled `""`) for table columns the
DataFrame lacks. -/
def sqlInsert (tCols dfCols row : List String) : List String :=
  tCols.map (fun c =>
    match dfCols.findIdx? (fun d => d = c) with
    | some i => row.getD i ""
    | none => "")

/-- Model of `DataFrame.to_sql(name, conn, if_exists='append',
index=False)` (lines 101/126).  On a missing table, `to_sql` creates it
from the DataFrame (this pipeline always creates the table first, so the
branch is unreachable here).  On an existing table, pandas names every
DataFrame column in its `INSERT`, and SQLite raises
`OperationalError: table <name> has no column named <col>` when one of
them is absent from the stored table — a deterministic error, returned
as `none`; otherwise the rows are inserted by column name.  (Name
resolution is modelled as exact match; every name this pipeline emits is
generated by `renameColumns` or the fallback's `column_<i>` synthesis, so
SQLite's ASCII case-folding of identifiers is never exercised.) -/
def to_sql_append (st : DBState) (name : String) (dfCols : List String)
    (rows : List (List String)) : Option DBState :=
  match tableLookup st name with
  | none => some { st with tables := st.tables ++ [(name, ⟨dfCols, rows⟩)] }
  | some t =>
    if dfCols.all (fun c => t.columns.contains c) then
      some (appendRows st name (rows.map (fun r => sqlInsert t.columns dfCols r)))
    else none

/-- Model of `SELECT _hash FROM <table>` (lines 95/120): the values of the
`_hash` column, or `none` (an exception) when the table has no such
column. -/
def selectHashes (t : Table) : Option (List String) :=
  match t.columns.findIdx? (fun c => c = "_hash") with
  | some i => some (t.rows.map (fun r => r.getD i ""))
  | none => none

/-- Per-row filter of line 98 / line 122:
`df[~df['_hash'].isin(existing_hashes)]` — keeps exactly the rows whose
digest is absent from the hashes already stored in the target table.
Rows inside one batch are not compared with each other. -/
def dedupe (rows : List (List String)) (existing : List String) : List (List String) :=
  rows.filter (fun r => ¬ existing.contains (rowHash r))

/-- Rows extended with their `_hash` value (line 90 / 116), ready for
insertion. -/
def withHash (rows : List (List String)) : List (List String) :=
  rows.map (fun r => r ++ [rowHash r])

/-! ## Import orchestrator (`import_csvs_to_db`, lines 47-135)

The `csv.Sniffer` dialect and header guesses are heuristic (specification
section 4.2); they are inputs of the model, carried on each file.
`to_sql` can fail two ways: deterministically, when the DataFrame has a
column the existing table lacks (modelled inside `to_sql_append`), and
exogenously — disk full, locked database — which is an input flag per
attempt.  A failed `to_sql` writes nothing. -/

/-- One discovered `*.csv` file.  `content = none` models a file whose
bytes cannot be read (`open` raising an `OSError`). -/
structure File where
  name : String
  content : Option String
  sniffDelim : Char
  sniffHeader : Bool
  primaryPersistOk : Bool
  fallbackPersistOk : Bool
deriving Repr, DecidableEq

/-- Terminal state of one file's processing, mirroring the four printed
messages of the source. -/
inductive Outcome
  | skipped
  | imported
  | fallbackImported
  | failed
deriving Repr, DecidableEq

/-- Model of `get_file_hash` (lines 33-35) on readable content. -/
def fileHash (c : String) : String := digest c

/-- Fallback column-count heuristic, `infer_columns_structure`
(lines 42-45): the element at index 0 of `common_column_count` — the
count recorded earliest in the process — or the hard-coded default 5 when
the list is empty. -/
def infer_columns_structure (ccc : List Nat) : Nat :=
  match ccc with
  | [] => 5
  | n :: _ => n

/-- Heuristic that claim C1 (and specification sections 3 and 4.5)
describes: the MOST RECENT successful count.  Counts are appended at the
end of `common_column_count`, so the most recent one is the last element,
not the element at index 0 that `infer_columns_structure` returns. -/
def claimed_infer_columns (ccc : List Nat) : Nat := ccc.getLastD 5

/-- Shared tail of both import paths (lines 91-107 and 117-131): create
the table if absent, read the stored hashes, drop rows whose digest is
already stored, `to_sql` the remainder (which raises on a column the
stored table lacks, and can also fail exogenously — `flagOk = false`),
and record the ledger entry.  With nothing left to insert after dedupe,
no row is written and no insert error can arise.  Returns `none` in the
second component when an exception escapes the stage, leaving the
partial effects (table creation) in place. -/
def persistStage (st : DBState) (tname : String) (cols : List String)
    (rows : List (List String)) (flagOk : Bool) (fname h : String)
    (outc : Outcome) : DBState × Option Outcome :=
  let st1 := createTableIfAbsent st tname (cols ++ ["_hash"])
  match tableLookup st1 tname with
  | none => (st1, none)
  | some t =>
    match selectHashes t with
    | none => (st1, none)
    | some existing =>
      let newRows := dedupe rows existing
      if newRows.isEmpty then (ledgerPut st1 fname h, some outc)
      else if flagOk then
        match to_sql_append st1 tname (cols ++ ["_hash"]) (withHash newRows) with
        | some st2 => (ledgerPut st2 fname h, some outc)
        | none => (st1, none)
      else (st1, none)

/-- Primary read of lines 75-78: `read_csv` with the sniffed delimiter and
header flag; an exception triggers one retry with `header=None`. -/
def primaryRead (delim : Char) (hdr : Bool) (c : String) : Option DF :=
  match pdReadCsv delim hdr c with
  | some df => some df
  | none => pdReadCsv delim false c

/-- Column renaming of lines 83-86: without a header, synthesize
`column_1..column_N`; with one, keep each header name unless its
whitespace-stripped form is empty, in which case use `column_<i+1>`. -/
def renameColumns (hdr : Bool) (cols : List String) : List String :=
  if hdr then
    (cols.enum).map (fun p =>
      if p.2.toList.all Char.isWhitespace then "column_" ++ toString (p.1 + 1) else p.2)
  else
    (List.range cols.length).map (fun i => "column_" ++ toString (i + 1))

/-- Primary import path (lines 61-107) for a readable file.  `none` in
the second component means an exception escaped (empty parse, missing
`_hash` column, or a raising `to_sql`), handing control to the fallback
with the partial effects (the `common_column_count` append of line 88,
table creation) retained. -/
def primaryAttempt (st : DBState) (f : File) (c : String) : DBState × Option Outcome :=
  match primaryRead f.sniffDelim f.sniffHeader c with
  | none => (st, none)
  | some df =>
    if df.rows.isEmpty || df.columns.isEmpty then (st, none)
    else
      let cols := renameColumns f.sniffHeader df.columns
      let st1 := { st with ccc := st.ccc ++ [cols.length] }
      persistStage st1 (generate_table_name f.name) cols df.rows
        f.primaryPersistOk f.name (fileHash c) Outcome.imported

/-- Fallback path (lines 110-131): re-read with the default comma
delimiter and no header (line 113 passes neither), keep the first
`infer_columns_structure` columns of every row (line 114), synthesize
column names, and run the shared persist stage. -/
def fallbackAttempt (st : DBState) (f : File) (c : String) : DBState × Option Outcome :=
  let fallbackCols := infer_columns_structure st.ccc
  match pdReadCsv ',' false c with
  | none => (st, none)
  | some df =>
    let rows := df.rows.map (fun r => r.take fallbackCols)
    let ncols := min fallbackCols df.columns.length
    let cols := (List.range ncols).map (fun i => "column_" ++ toString (i + 1))
    persistStage st (generate_table_name f.name) cols rows
      f.fallbackPersistOk f.name (fileHash c) Outcome.fallbackImported

/-- Per-file processing: hash-based skip (lines 55-59), then the primary
attempt, then — on any exception — the fallback, then FAILED. -/
def processFile (st : DBState) (f : File) (c : String) : DBState × Outcome :=
  if st.ledger.contains (f.name, fileHash c) then (st, Outcome.skipped)
  else
    match primaryAttempt st f c with
    | (st1, some o) => (st1, o)
    | (st1, none) =>
      match fallbackAttempt st1 f c with
      | (st2, some o) => (st2, o)
      | (st2, none) => (st2, Outcome.failed)

/-- Batch import over the discovered files, modelling the `for` loop of
lines 54-133.  `get_file_hash` runs outside the `try` block, so an
unreadable file raises an uncaught `OSError`: the fold stops and the
second component reports the abort. -/
def import_csvs_to_db (st : DBState) : List File → DBState × Bool
  | [] => (st, false)
  | f :: fs =>
    match f.content with
    | none => (st, true)
    | some c => import_csvs_to_db (processFile st f c).1 fs

/-! ## SQLite query model for `search_db` (lines 137-179)

`search_db` interpolates column names into SQL text unquoted and binds the
search terms through `?` placeholders.  To settle claims about that text,
the relevant SQLite fragment is modelled: a tokenizer and a
recursive-descent parser for boolean expressions over `LIKE`, `OR`, `AND`,
`NOT`, parentheses, bare identifiers, integer literals and placeholders,
and an evaluator in which `LIKE` is — as in SQLite's default
configuration — case-insensitive on the ASCII letters, with `%` and `_`
wildcards.  `none` anywhere models the exception SQLite raises and line
174 catches per table. -/

/-- First character of an SQL bare identifier. -/
def identStart (c : Char) : Bool := c.isAlpha || c = '_'

/-- Subsequent character of an SQL bare identifier. -/
def identChar (c : Char) : Bool := c.isAlphanum || c = '_'

/-- Keywords that SQLite will not accept as a bare column reference.  A
word in this list makes the interpolated query fail.  SQLite additionally
gives special meaning to a few words (`null`, `case`, `cast`, `exists`)
that begin expression forms outside this fragment; they are also listed
here, and no theorem below instantiates a column name with any of them. -/
def sqlReserved : List String :=
  ["select", "from", "where", "group", "order", "by", "limit", "having",
   "union", "insert", "update", "delete", "create", "table", "into",
   "values", "set", "join", "on", "using", "distinct", "all", "as",
   "case", "when", "then", "else", "end", "between", "in", "is", "null",
   "exists", "cast", "collate", "escape", "glob", "regexp", "isnull",
   "notnull", "primary", "foreign", "references", "constraint", "check",
   "unique", "default", "index", "drop", "alter", "add", "to",
   "transaction", "commit"]

/-- ASCII lowercasing of a whole string. -/
def lcStr (s : String) : String := String.mk (s.toList.map Char.toLower)

/-- Tokens of the modelled SQL fragment. -/
inductive Tok
  | tid (s : String)
  | tnum (s : String)
  | tlike
  | tdisj
  | tconj
  | tneg
  | tlp
  | trp
  | tqm
deriving Repr, DecidableEq

/-- Classification of an identifier-shaped word: the operator keywords
`LIKE`/`OR`/`AND`/`NOT` (SQLite keywords are case-insensitive), a reserved
word (query fails), or a plain identifier. -/
def classifyWord (w : String) : Option Tok :=
  let l := lcStr w
  if l = "like" then some Tok.tlike
  else if l = "or" then some Tok.tdisj
  else if l = "and" then some Tok.tconj
  else if l = "not" then some Tok.tneg
  else if sqlReserved.contains l then none
  else some (Tok.tid w)

/-- Characters the tokenizer can consume somewhere; any other character
is an `unrecognized token` error, as in SQLite. -/
def tokenChar (c : Char) : Bool :=
  c = ' ' || c = '(' || c = ')' || c = '?' || identChar c

/-- Fueled tokenizer core.  A digit-initial word that is not all digits is
rejected, matching SQLite's `unrecognized token` error on input such as
`1abc`. -/
def tokAux : Nat → List Char → Option (List Tok)
  | _, [] => some []
  | 0, _ :: _ => none
  | f + 1, c :: cs =>
    if c = ' ' then tokAux f cs
    else if c = '(' then (tokAux f cs).map (fun ts => Tok.tlp :: ts)
    else if c = ')' then (tokAux f cs).map (fun ts => Tok.trp :: ts)
    else if c = '?' then (tokAux f cs).map (fun ts => Tok.tqm :: ts)
    else if identStart c then
      match classifyWord (String.mk (c :: cs.takeWhile identChar)) with
      | none => none
      | some t => (tokAux f (cs.dropWhile identChar)).map (fun ts => t :: ts)
    else if c.isDigit then
      if (cs.takeWhile identChar).all (fun ch => ch.isDigit) then
        (tokAux f (cs.dropWhile identChar)).map
          (fun ts => Tok.tnum (String.mk (c :: cs.takeWhile identChar)) :: ts)
      else none
    else none

/-- Tokenization of a character list; the fuel `cs.length` suffices since
every step consumes at least one character. -/
def tokenize (cs : List Char) : Option (List Tok) := tokAux cs.length cs

/-- Expressions of the modelled fragment.  Placeholders carry their
0-based position among the `?`s of the statement, which is how SQLite
binds positional parameters. -/
inductive Expr
  | ecol (s : String)
  | elit (s : String)
  | eph (i : Nat)
  | elike (a b : Expr)
  | eand (a b : Expr)
  | eor (a b : Expr)
  | enot (a : Expr)
deriving Repr, DecidableEq

/-- Precedence levels of the recursive-descent parser, loosest first:
`OR`, `AND`, `NOT`, `LIKE`, primary.  This matches SQLite, where `NOT x
LIKE y` parses as `NOT (x LIKE y)`. -/
inductive Lvl
  | ldisj
  | lconj
  | lneg
  | llike
  | lprim
deriving Repr, DecidableEq

/-- Fueled recursive-descent parser.  Returns the parsed expression, the
unconsumed tokens and the next placeholder index.  `OR`/`AND` chains are
parsed right-associatively; SQLite parses them left-associatively, but
both operators are semantically associative, so evaluation agrees. -/
def parseE : Nat → Lvl → List Tok → Nat → Option (Expr × List Tok × Nat)
  | 0, _, _, _ => none
  | f + 1, lvl, ts, k =>
    match lvl with
    | Lvl.ldisj =>
      match parseE f Lvl.lconj ts k with
      | some (e, Tok.tdisj :: ts1, k1) =>
        match parseE f Lvl.ldisj ts1 k1 with
        | some (e2, ts2, k2) => some (Expr.eor e e2, ts2, k2)
        | none => none
      | r => r
    | Lvl.lconj =>
      match parseE f Lvl.lneg ts k with
      | some (e, Tok.tconj :: ts1, k1) =>
        match parseE f Lvl.lconj ts1 k1 with
        | some (e2, ts2, k2) => some (Expr.eand e e2, ts2, k2)
        | none => none
      | r => r
    | Lvl.lneg =>
      match ts with
      | Tok.tneg :: ts1 =>
        match parseE f Lvl.lneg ts1 k with
        | some (e, ts2, k2) => some (Expr.enot e, ts2, k2)
        | none => none
      | _ => parseE f Lvl.llike ts k
    | Lvl.llike =>
      match parseE f Lvl.lprim ts k with
      | some (e, Tok.tlike :: ts1, k1) =>
        match parseE f Lvl.lprim ts1 k1 with
        | some (p, ts2, k2) => some (Expr.elike e p, ts2, k2)
        | none => none
      | r => r
    | Lvl.lprim =>
      match ts with
      | Tok.tid s :: ts1 => some (Expr.ecol s, ts1, k)
      | Tok.tnum s :: ts1 => some (Expr.elit s, ts1, k)
      | Tok.tqm :: ts1 => some (Expr.eph k, ts1, k + 1)
      | Tok.tlp :: ts1 =>
        match parseE f Lvl.ldisj ts1 k with
        | some (e, Tok.trp :: ts2, k2) => some (e, ts2, k2)
        | _ => none
      | _ => none

/-- Parse of a complete `WHERE` clause: every token must be consumed, as
SQLite rejects trailing input.  The fuel is generous (justified where
needed by the monotonicity lemma below). -/
def parseClause (ts : List Tok) : Option Expr :=
  match parseE (8 * ts.length + 20) Lvl.ldisj ts 0 with
  | some (e, [], _) => some e
  | _ => none

/-- Fueled core of SQLite `LIKE` matching: `%` matches any sequence, `_`
any single character, and letters compare after ASCII lowercasing (SQLite
default, `case_sensitive_like` off). -/
def likeAux : Nat → List Char → List Char → Bool
  | 0, _, _ => false
  | _ + 1, [], [] => true
  | f + 1, '%' :: ps, cs =>
    likeAux f ps cs ||
      (match cs with
       | [] => false
       | _ :: cs1 => likeAux f ('%' :: ps) cs1)
  | f + 1, p :: ps, c :: cs =>
    if p = '_' then likeAux f ps cs
    else p.toLower = c.toLower && likeAux f ps cs
  | _ + 1, _, _ => false

/-- SQLite `value LIKE pattern` for string operands; every step of
`likeAux` shrinks pattern plus text, so the fuel suffices. -/
def likeMatch (pattern value : String) : Bool :=
  likeAux (pattern.toList.length + value.toList.length + 1) pattern.toList value.toList

/-- Column names referenced by an expression. -/
def colsOf : Expr → List String
  | Expr.ecol s => [s]
  | Expr.elit _ => []
  | Expr.eph _ => []
  | Expr.elike a b => colsOf a ++ colsOf b
  | Expr.eand a b => colsOf a ++ colsOf b
  | Expr.eor a b => colsOf a ++ colsOf b
  | Expr.enot a => colsOf a

/-- Value of a named column in a row, by position of the name. -/
def colValue (cols row : List String) (s : String) : Option String :=
  (cols.findIdx? (fun c => c = s)).map (fun i => row.getD i "")

/-- Evaluation of a value-sorted expression against one row.  An unbound
placeholder index does not arise: the source always binds exactly one
argument per `?`. -/
def evalV (cols row args : List String) : Expr → Option String
  | Expr.ecol s => colValue cols row s
  | Expr.elit s => some s
  | Expr.eph i => some (args.getD i "")
  | _ => none

/-- Evaluation of a boolean-sorted expression against one row.  A bare
value in boolean position (SQLite's numeric truthiness) does not arise in
the queries this program generates and is left as an error. -/
def evalB (cols row args : List String) : Expr → Option Bool
  | Expr.elike a b =>
    match evalV cols row args a, evalV cols row args b with
    | some v, some p => some (likeMatch p v)
    | _, _ => none
  | Expr.eand a b =>
    match evalB cols row args a, evalB cols row args b with
    | some x, some y => some (x && y)
    | _, _ => none
  | Expr.eor a b =>
    match evalB cols row args a, evalB cols row args b with
    | some x, some y => some (x || y)
    | _, _ => none
  | Expr.enot a => (evalB cols row args a).map (fun x => !x)
  | _ => none

/-- Filters rows by the parsed predicate; any row evaluation error aborts
the whole query, as a runtime error does in SQLite. -/
def filterEval (cols args : List String) (e : Expr) : List (List String) → Option (List (List String))
  | [] => some []
  | r :: rs =>
    match evalB cols r args e, filterEval cols args e rs with
    | some b, some rest => some (if b then r :: rest else rest)
    | _, _ => none

/-- Execution of `SELECT * FROM t WHERE <clause>` with positional
arguments: tokenize, parse, resolve column names (SQLite resolves names
when the statement is prepared, before any row is visited), then filter
the rows. -/
def sqlExec (t : Table) (clause : String) (args : List String) : Option (List (List String)) :=
  match tokenize clause.toList with
  | none => none
  | some ts =>
    match parseClause ts with
    | none => none
    | some e =>
      if (colsOf e).all (fun s => t.columns.contains s) then
        filterEval t.columns args e t.rows
      else none

/-- WHERE-clause text of lines 156-158: per term, a parenthesized `OR`
over `col LIKE ?` for every non-`_hash` column, the groups joined by
`AND`; column names are interpolated into the text unquoted. -/
def buildWhere (cols terms : List String) : String :=
  joinWith " AND "
    (terms.map (fun _ =>
      "(" ++ joinWith " OR " (cols.map (fun c => c ++ " LIKE ?")) ++ ")"))

/-- Whitespace split of Python `str.split()` with no argument: split on
whitespace runs, dropping empty pieces. -/
def pySplit (s : String) : List String :=
  ((splitBy (fun c => c.isWhitespace) s.toList).map (fun cs => String.mk cs)).filter
    (fun w => w ≠ "")

/-- Search over one table (lines 146-173): an empty column list means the
table is silently skipped (line 150); otherwise the query of lines
156-163 runs with one `%term%` argument per column per term, and matching
rows are displayed projected to the non-`_hash` columns.  `none` models
the per-table exception caught at line 174. -/
def searchTable (t : Table) (kw : String) : Option (List (List String)) :=
  if t.columns.isEmpty then some []
  else
    let cols := t.columns.filter (fun c => c ≠ "_hash")
    let terms := pySplit kw
    let clause := buildWhere cols terms
    let args := terms.flatMap (fun term => cols.map (fun _ => "%" ++ term ++ "%"))
    (sqlExec t clause args).map (fun rows =>
      rows.map (fun r => cols.map (fun c => (colValue t.columns r c).getD "")))

/-- Model of `str.startswith`. -/
def strHasPfx (s pre : String) : Bool := pre.toList.isPrefixOf s.toList

/-- Whole-store search (lines 137-179): every table whose name carries the
namespace marker is searched; a per-table result of `none` is the caught,
reported error of lines 174-175, after which the sweep continues. -/
def search_db (st : DBState) (kw : String) : List (String × Option (List (List String))) :=
  (st.tables.filter (fun e => strHasPfx e.1 tableNamePfx)).map
    (fun e => (e.1, searchTable e.2 kw))

/-- Identifier-shaped, non-keyword words: column names of this form are
accepted by SQLite as bare column references. -/
def simpleIdent (s : String) : Bool :=
  (match s.toList with
   | [] => false
   | c :: cs => identStart c && cs.all identChar)
  && !((["like", "or", "and", "not"] ++ sqlReserved).contains (lcStr s))

/-- Characters that SQLite's tokenizer rejects outright (`unrecognized
token`) in any position: caret, backslash and the curly brackets.  Most
other punctuation is some SQLite token (`-` is minus, `.` qualifies
names, quotes open literals), so a query holding it may fail for other
reasons or even parse; these four always fail. -/
def sqlHostileChar (c : Char) : Bool :=
  c = '^' || c = '\\' || c = '\x7b' || c = '\x7d'

/-- Token sequence of the `OR` chain `c1 LIKE ? OR c2 LIKE ? OR ...` that
lines 156-158 generate inside one parenthesized group. -/
def orToks : List String → List Tok
  | [] => []
  | [c] => [Tok.tid c, Tok.tlike, Tok.tqm]
  | c :: c2 :: rest => Tok.tid c :: Tok.tlike :: Tok.tqm :: Tok.tdisj :: orToks (c2 :: rest)

/-- Token sequence of one parenthesized per-term group. -/
def groupToks (cols : List String) : List Tok :=
  Tok.tlp :: (orToks cols ++ [Tok.trp])

/-- Token sequence of the whole generated WHERE clause: one group per
search term, joined by `AND`. -/
def clauseToksL (cols : List String) : List String → List Tok
  | [] => []
  | [_] => groupToks cols
  | _ :: t :: rest => groupToks cols ++ Tok.tconj :: clauseToksL cols (t :: rest)

/-- Expression a group parses to: a right-nested `OR` of `col LIKE ?`,
with consecutive placeholder indices from `k`. -/
def orAst (k : Nat) : List String → Expr
  | [] => Expr.elit ""
  | [c] => Expr.elike (Expr.ecol c) (Expr.eph k)
  | c :: c2 :: rest =>
    Expr.eor (Expr.elike (Expr.ecol c) (Expr.eph k)) (orAst (k + 1) (c2 :: rest))

/-- Expression the whole clause parses to: a right-nested `AND` of the
per-term groups, each consuming `cols.length` placeholders. -/
def clauseAstL (cols : List String) (k : Nat) : List String → Expr
  | [] => Expr.elit ""
  | [_] => orAst k cols
  | _ :: t :: rest => Expr.eand (orAst k cols) (clauseAstL cols (k + cols.length) (t :: rest))

/-- Holds when the primary path raises before reaching line 88 (the
`common_column_count` append): the read itself fails, or the parsed frame
is empty (line 80).  This depends only on the file's content and sniff
results, not on the database state. -/
def primaryAbandonsEarly (f : File) (c : String) : Bool :=
  match primaryRead f.sniffDelim f.sniffHeader c with
  | none => true
  | some df => df.rows.isEmpty || df.columns.isEmpty

/-! ## Concrete instances used by individual claims -/

/-- Empty initial state: fresh database, `common_column_count = []` (the
module-level list starts empty each process invocation). -/
def st0 : DBState := ⟨[], [], []⟩

/-- File for C6: header row with a blank middle name. -/
def exF6 : File := ⟨"people.csv", some "Name,,Age\nAlice,5,30", ',', true, true, true⟩

/-- File for C5 whose bytes cannot be read: `get_file_hash` raises. -/
def exF5bad : File := ⟨"bad.csv", none, ',', false, true, true⟩

/-- Readable, well-formed file for C5. -/
def exF5good : File := ⟨"good.csv", some "x,y\n1,2", ',', false, true, true⟩

/-- Files for C1: two primary successes with widths 2 and then 7. -/
def exF1a : File := ⟨"a.csv", some "1,2\n3,4", ',', false, true, true⟩

/-- Second C1 file, width 7. -/
def exF1b : File :=
  ⟨"b.csv", some "1,2,3,4,5,6,7\n8,9,10,11,12,13,14", ',', false, true, true⟩

/-- Third C1 file: the sniffer saw a header and the file has a single
line, so the primary parse yields zero data rows and the fallback runs;
the comma re-parse finds 9 fields. -/
def exF1f : File := ⟨"f.csv", some "a,b,c,d,e,f,g,h,i", ',', true, true, true⟩

/-- File for C7: the primary `to_sql` raises, the fallback one does not. -/
def exF7 : File := ⟨"p.csv", some "a,b\nc,d", ',', false, false, true⟩

/-- File for C9: true delimiter semicolon, sniffed as such, routed to the
fallback (header sniffed on a single-line file). -/
def exF9 : File := ⟨"w.csv", some "a;b,c", ';', true, true, true⟩

/-- Table for C4's counterexample: an upper-case stored value. -/
def exT4 : Table := ⟨["name", "_hash"], [["JOHN", "h1"]]⟩

/-- Table for C10's counterexample: the second column name `not y` is not
a valid bare SQL identifier, yet interpolated into the query it parses as
`NOT (y LIKE ?)`. -/
def exT10 : Table := ⟨["y", "not y", "_hash"], [["john", "x", "h1"]]⟩

/-- Store for C10's counterexample. -/
def exSt10 : DBState := ⟨[], [("csv_table_t", exT10)], []⟩

/-- First file of C2's counterexample folder: `t_t.csv`, a single line of
four fields.  The sniffer reports a header on single-line samples, so the
primary parse has zero data rows and the file goes to the fallback, which
— `common_column_count` still empty, the fallback never appends to it —
creates `csv_table_t_t` with four data columns. -/
def exC2a : File := ⟨"t_t.csv", some "1,2,3,4", ',', true, true, true⟩

/-- Second file of C2's counterexample folder: `t-t.csv` maps to the SAME
table name `csv_table_t_t` (the `-` is rewritten to `_`).  Its fallback
re-parse is six fields wide; truncated to `infer_columns_structure` = 5
columns it asks `to_sql` for `column_5`, which the existing four-column
table lacks, so the insert raises and the file FAILS — on the first run.
On the second run `common_column_count = [3]`, the truncation is three
columns, the insert fits, and a row IS added. -/
def exC2b : File := ⟨"t-t.csv", some "a,b,c,d,e,f", ',', true, true, true⟩

/-- Third file of C2's counterexample folder: a plain three-column file
whose primary import records `common_column_count = [3]`. -/
def exC2c : File := ⟨"c.csv", some "1,2,3\n4,5,6", ',', false, true, true⟩

/-- Starting state for the C2 witness: the one file of the folder already
has a current ledger entry. -/
def exC2st : DBState := ⟨[("good.csv", "x,y\n1,2")], [], []⟩

/-! # Theorems

Helper lemmas come first, then one theorem per claim (with its witness or
counterexample where required). -/

/-- Below code point 128, Python `\w` coincides with `[A-Za-z0-9_]`. -/
theorem pyIsWordChar_ascii {c : Char} (h : c.toNat < 128) :
    pyIsWordChar c = (c.isAlphanum || c = '_') := by
  unfold pyIsWordChar
  have h1 : ¬ (0xC0 ≤ c.toNat) := by omega
  have h2 : c.toNat ≠ 0xAA := by omega
  have h3 : c.toNat ≠ 0xB5 := by omega
  have h4 : c.toNat ≠ 0xBA := by omega
  simp [h1, h2, h3, h4]

/-- Claim C8 — corrected.  The sanitization of `generate_table_name`
replaces every character outside Python's Unicode word class `\w`, not
every character outside `[A-Za-z0-9_]` as the claim states: on any path
whose characters are ASCII the two transformations agree (this theorem),
but a non-ASCII word character such as `é` is kept by the code and
replaced under the claim's reading (see the counterexample). -/
theorem c8_tablename_ascii (p : String)
    (h : ∀ c ∈ stemOf (pyBasename p).toList, c.toNat < 128) :
    generate_table_name p = claimed_table_name p := by
  have hmap : ((stemOf (pyBasename p).toList).map
      (fun c => if pyIsWordChar c then c else '_')) =
      ((stemOf (pyBasename p).toList).map
      (fun c => if c.isAlphanum || c = '_' then c else '_')) := by
    apply List.map_congr_left
    intro c hc
    rw [pyIsWordChar_ascii (h c hc)]
  simp only [generate_table_name, claimed_table_name]
  rw [hmap]

/-- Witness for C8's theorem at the ASCII path `data/My File.csv`. -/
theorem c8_tablename_ascii_witness :
    generate_table_name "data/My File.csv" = claimed_table_name "data/My File.csv" :=
  c8_tablename_ascii "data/My File.csv" (by decide)

/-- Counterexample to claim C8 as stated: in `café.csv` the character `é`
is not in `[A-Za-z0-9_]`, so the claim requires it to become `_`, yet the
code keeps it (`é` matches Python `\w`). -/
theorem c8_counterexample :
    generate_table_name "data/café.csv" = "csv_table_café" ∧
    claimed_table_name "data/café.csv" = "csv_table_caf_" ∧
    generate_table_name "data/café.csv" ≠ claimed_table_name "data/café.csv" := by
  refine ⟨by decide, by decide, by decide⟩

/-- Rows surviving `dedupe` are exactly the input rows whose digest is
not among the stored hashes. -/
theorem mem_dedupe {rows : List (List String)} {existing : List String}
    {r : List String} :
    r ∈ dedupe rows existing ↔ r ∈ rows ∧ rowHash r ∉ existing := by
  simp [dedupe, List.mem_filter]

/-- Counterexample to claim C3 as stated: two rows with identical values
in the same batch are both retained when their shared digest is not yet
stored — `dedupe` compares rows only against the hashes already in the
table, never against each other. -/
theorem c3_counterexample :
    dedupe [["a"], ["a"]] [] = [["a"], ["a"]] ∧
    (dedupe [["a"], ["a"]] []).length = 2 := ⟨by decide, by decide⟩

/-- Claim C3 — corrected.  The digest is computed over the separator-free
concatenation of the string-coerced values in column order, and a row is
kept exactly when its digest is absent from the hashes already stored in
the target table.  Rows whose digest is already stored are all dropped
(so at most one copy of a value sequence ever enters the table across
runs: once a copy is stored, every later equal-valued row — even one
with a different field split but equal concatenation — is dropped); but
two equal-valued rows arriving in the same batch, digest not yet stored,
are both retained. -/
theorem c3_dedupe_amended (rows rows2 : List (List String)) (existing : List String)
    (r1 r2 : List String) (hjoin : String.join r1 = String.join r2) :
    rowHash r1 = rowHash r2 ∧
    (rowHash r1 ∈ existing → r1 ∉ dedupe rows existing ∧ r2 ∉ dedupe rows existing) ∧
    (r1 ∈ dedupe rows existing →
      r2 ∉ dedupe rows2 (existing ++ (dedupe rows existing).map rowHash)) ∧
    (∀ r, r ∈ dedupe rows existing ↔ r ∈ rows ∧ rowHash r ∉ existing) := by
  have hhash : rowHash r1 = rowHash r2 := by
    simp only [rowHash, digest, hjoin]
  refine ⟨hhash, ?_, ?_, fun r => mem_dedupe⟩
  · intro hmem
    constructor
    · intro hr; exact (mem_dedupe.mp hr).2 hmem
    · intro hr; exact (mem_dedupe.mp hr).2 (hhash ▸ hmem)
  · intro h1 h2
    have : rowHash r2 ∉ existing ++ (dedupe rows existing).map rowHash :=
      (mem_dedupe.mp h2).2
    exact this (List.mem_append_right _ (hhash ▸ List.mem_map_of_mem rowHash h1))

/-- Witness for C3's theorem: the field splits `["a","bc"]` and
`["ab","c"]` concatenate to the same string, so once the first is kept,
the second is dropped by a later dedup against the updated hashes. -/
theorem c3_dedupe_amended_witness :
    rowHash ["a", "bc"] = rowHash ["ab", "c"] ∧
    ["ab", "c"] ∉ dedupe [["ab", "c"]] ([] ++ (dedupe [["a", "bc"]] []).map rowHash) := by
  have h := c3_dedupe_amended [["a", "bc"]] [["ab", "c"]] [] ["a", "bc"] ["ab", "c"] (by decide)
  exact ⟨h.1, h.2.2.1 (by decide)⟩

/-- Claim C6 — code bug.  The renaming of line 86 is meant to replace a
blank header name with `column_<position>`, but pandas has already
replaced the empty header field of `Name,,Age` with the non-blank
placeholder `Unnamed: 1` before that line runs, so the placeholder is
kept.  The claimed column names `Name, column_2, Age` are not produced. -/
theorem c6_blank_header_not_renamed :
    (tableLookup (import_csvs_to_db st0 [exF6]).1 "csv_table_people").map
      (fun t => t.columns) = some ["Name", "Unnamed: 1", "Age", "_hash"] ∧
    (tableLookup (import_csvs_to_db st0 [exF6]).1 "csv_table_people").map
      (fun t => t.columns) ≠ some ["Name", "column_2", "Age", "_hash"] :=
  ⟨by decide, by decide⟩

/-- Claim C5 — code bug.  `get_file_hash` runs before the `try` block of
line 61, so a file that cannot be read raises an uncaught `OSError` that
aborts the whole batch: with the unreadable file first, the state is
untouched and the readable file behind it is never imported, although
alone it imports fine. -/
theorem c5_hash_ioerror_aborts_batch :
    import_csvs_to_db st0 [exF5bad, exF5good] = (st0, true) ∧
    (import_csvs_to_db st0 [exF5good]).2 = false ∧
    tableLookup (import_csvs_to_db st0 [exF5good]).1 "csv_table_good" ≠ none :=
  ⟨by decide, by decide, by decide⟩

/-- Creating a table (or not) never touches the ledger. -/
theorem createTableIfAbsent_ledger (st : DBState) (n : String) (cs : List String) :
    (createTableIfAbsent st n cs).ledger = st.ledger := by
  unfold createTableIfAbsent
  split <;> rfl

/-- Appending rows never touches the ledger. -/
theorem appendRows_ledger (st : DBState) (n : String) (rs : List (List String)) :
    (appendRows st n rs).ledger = st.ledger := rfl

/-- A completed `to_sql` never touches the ledger. -/
theorem to_sql_append_ledger {st st2 : DBState} {n : String} {dfCols : List String}
    {rows : List (List String)} (h : to_sql_append st n dfCols rows = some st2) :
    st2.ledger = st.ledger := by
  unfold to_sql_append at h
  rcases htl : tableLookup st n with - | t
  · simp only [htl] at h
    rw [← Option.some.inj h]
  · simp only [htl] at h
    by_cases hsub : dfCols.all (fun c => t.columns.contains c) = true
    · rw [if_pos hsub] at h
      rw [← Option.some.inj h]
      rfl
    · rw [if_neg hsub] at h
      exact absurd h (by simp)

/-- Every member of a list is contained in it: the `to_sql` column check
passes when the DataFrame's columns are exactly the table's. -/
theorem all_contains_self (l : List String) : l.all (fun c => l.contains c) = true := by
  rw [List.all_eq_true]
  intro x hx
  simpa using hx

/-- Either a persist stage ends in an exception having left the ledger
alone, or it completes with its designated outcome having recorded the
file's entry. -/
theorem persistStage_spec (st : DBState) (tname : String) (cols : List String)
    (rows : List (List String)) (flagOk : Bool) (fname h : String) (outc : Outcome) :
    ((persistStage st tname cols rows flagOk fname h outc).2 = none ∧
     (persistStage st tname cols rows flagOk fname h outc).1.ledger = st.ledger) ∨
    ((persistStage st tname cols rows flagOk fname h outc).2 = some outc ∧
     (persistStage st tname cols rows flagOk fname h outc).1.ledger.contains (fname, h) = true) := by
  have hled := createTableIfAbsent_ledger st tname (cols ++ ["_hash"])
  have hput : ∀ s : DBState, (ledgerPut s fname h).ledger.contains (fname, h) = true := by
    intro s
    simp [ledgerPut]
  unfold persistStage
  rcases htl : tableLookup (createTableIfAbsent st tname (cols ++ ["_hash"])) tname with - | t
  · simp only [htl]
    exact Or.inl ⟨by trivial, hled⟩
  · simp only [htl]
    rcases hsel : selectHashes t with - | existing
    · simp only [hsel]
      exact Or.inl ⟨by trivial, hled⟩
    · simp only [hsel]
      by_cases hempty : (dedupe rows existing).isEmpty
      · simp only [hempty, if_pos]
        exact Or.inr ⟨by trivial, hput _⟩
      · simp only [hempty, if_neg, Bool.false_eq_true, not_false_iff, ite_false]
        by_cases hflag : flagOk
        · simp only [hflag, if_pos]
          rcases hsql : to_sql_append (createTableIfAbsent st tname (cols ++ ["_hash"]))
              tname (cols ++ ["_hash"]) (withHash (dedupe rows existing)) with - | st2
          · simp only [hsql]
            exact Or.inl ⟨by trivial, hled⟩
          · simp only [hsql]
            exact Or.inr ⟨by trivial, hput _⟩
        · simp only [hflag, ite_false]
          exact Or.inl ⟨by trivial, hled⟩

/-- Either the primary attempt ends in an exception with the ledger
untouched, or it completes as IMPORTED having recorded the entry. -/
theorem primaryAttempt_spec (st : DBState) (f : File) (c : String) :
    ((primaryAttempt st f c).2 = none ∧ (primaryAttempt st f c).1.ledger = st.ledger) ∨
    ((primaryAttempt st f c).2 = some Outcome.imported ∧
     (primaryAttempt st f c).1.ledger.contains (f.name, fileHash c) = true) := by
  unfold primaryAttempt
  split
  · exact Or.inl ⟨by trivial, by trivial⟩
  · split
    · exact Or.inl ⟨by trivial, by trivial⟩
    · exact persistStage_spec _ _ _ _ _ _ _ _

/-- Either the fallback attempt ends in an exception with the ledger
untouched, or it completes as FALLBACK-IMPORTED having recorded the
entry. -/
theorem fallbackAttempt_spec (st : DBState) (f : File) (c : String) :
    ((fallbackAttempt st f c).2 = none ∧ (fallbackAttempt st f c).1.ledger = st.ledger) ∨
    ((fallbackAttempt st f c).2 = some Outcome.fallbackImported ∧
     (fallbackAttempt st f c).1.ledger.contains (f.name, fileHash c) = true) := by
  unfold fallbackAttempt
  split
  · exact Or.inl ⟨by trivial, by trivial⟩
  · exact persistStage_spec _ _ _ _ _ _ _ _

/-- Processing is skipped when the ledger holds the filename with the
identical hash. -/
theorem processFile_skip {st : DBState} {f : File} {c : String}
    (hskip : st.ledger.contains (f.name, fileHash c) = true) :
    processFile st f c = (st, Outcome.skipped) := by
  unfold processFile
  rw [if_pos hskip]

/-- Equation for a completed primary attempt. -/
theorem processFile_primary_some {st st1 : DBState} {f : File} {c : String} {o : Outcome}
    (hskip : ¬ st.ledger.contains (f.name, fileHash c) = true)
    (hpa : primaryAttempt st f c = (st1, some o)) :
    processFile st f c = (st1, o) := by
  unfold processFile
  rw [if_neg hskip]
  simp only [hpa]

/-- Equation for a primary exception followed by a completed fallback. -/
theorem processFile_fallback_some {st st1 st2 : DBState} {f : File} {c : String} {o : Outcome}
    (hskip : ¬ st.ledger.contains (f.name, fileHash c) = true)
    (hpa : primaryAttempt st f c = (st1, none))
    (hfb : fallbackAttempt st1 f c = (st2, some o)) :
    processFile st f c = (st2, o) := by
  unfold processFile
  rw [if_neg hskip]
  simp only [hpa, hfb]

/-- Equation for a file whose both attempts end in exceptions. -/
theorem processFile_failed_eq {st st1 st2 : DBState} {f : File} {c : String}
    (hskip : ¬ st.ledger.contains (f.name, fileHash c) = true)
    (hpa : primaryAttempt st f c = (st1, none))
    (hfb : fallbackAttempt st1 f c = (st2, none)) :
    processFile st f c = (st2, Outcome.failed) := by
  unfold processFile
  rw [if_neg hskip]
  simp only [hpa, hfb]

/-- Counterexample to claim C7 as stated: for `exF7` the primary `to_sql`
raises (`primaryPersistOk = false`; the primary attempt got past
normalization, witnessed by its `common_column_count` append, and ended in
an exception), yet the file's ledger entry IS written, because the
exception routes the file to the fallback path, which succeeds and records
the ledger at line 130. -/
theorem c7_counterexample :
    exF7.primaryPersistOk = false ∧
    (primaryAttempt st0 exF7 "a,b\nc,d").2 = none ∧
    (primaryAttempt st0 exF7 "a,b\nc,d").1.ccc = [2] ∧
    (processFile st0 exF7 "a,b\nc,d").2 = Outcome.fallbackImported ∧
    (processFile st0 exF7 "a,b\nc,d").1.ledger.contains ("p.csv", fileHash "a,b\nc,d") = true :=
  ⟨by decide, by decide, by decide, by decide, by decide⟩

/-- Claim C7 — corrected.  Only a file whose processing ends in the FAILED
state (its fallback also raised) leaves the ledger untouched; a
persistence exception on the primary path alone routes the file to the
fallback, and any completed import — primary or fallback — records the
ledger entry with the new file hash. -/
theorem c7_ledger_amended (st : DBState) (f : File) (c : String) :
    ((processFile st f c).2 = Outcome.failed → (processFile st f c).1.ledger = st.ledger) ∧
    ((processFile st f c).2 = Outcome.imported ∨ (processFile st f c).2 = Outcome.fallbackImported →
      (processFile st f c).1.ledger.contains (f.name, fileHash c) = true) := by
  by_cases hskip : st.ledger.contains (f.name, fileHash c) = true
  · rw [processFile_skip hskip]
    exact ⟨fun h => by simp at h, fun _ => hskip⟩
  · rcases hpa : primaryAttempt st f c with ⟨st1, o1⟩
    have hspec := primaryAttempt_spec st f c
    rw [hpa] at hspec
    rcases hspec with ⟨h1, h2⟩ | ⟨h1, h2⟩
    · have ho : o1 = none := h1
      subst ho
      rcases hfb : fallbackAttempt st1 f c with ⟨st2, o2⟩
      have hfspec := fallbackAttempt_spec st1 f c
      rw [hfb] at hfspec
      rcases hfspec with ⟨g1, g2⟩ | ⟨g1, g2⟩
      · have ho2 : o2 = none := g1
        subst ho2
        rw [processFile_failed_eq hskip hpa hfb]
        have hled : st2.ledger = st.ledger := by
          have ga : st2.ledger = st1.ledger := g2
          have hb : st1.ledger = st.ledger := h2
          rw [ga, hb]
        exact ⟨fun _ => hled, fun h => by rcases h with h | h <;> simp at h⟩
      · have ho2 : o2 = some Outcome.fallbackImported := g1
        subst ho2
        rw [processFile_fallback_some hskip hpa hfb]
        exact ⟨fun h => by simp at h, fun _ => g2⟩
    · have ho : o1 = some Outcome.imported := h1
      subst ho
      rw [processFile_primary_some hskip hpa]
      exact ⟨fun h => by simp at h, fun _ => h2⟩

/-- Witness for C7's theorem at a file whose fallback also fails (empty
content): the ledger is untouched. -/
theorem c7_ledger_amended_witness :
    (processFile st0 ⟨"e.csv", some "", ',', false, true, true⟩ "").1.ledger = st0.ledger :=
  (c7_ledger_amended st0 ⟨"e.csv", some "", ',', false, true, true⟩ "").1 (by decide)

/-- With a sniffed header on a single-line file, the primary parse has
zero data rows, so line 80 raises for every delimiter and the file is
routed to the fallback with no primary-path effects. -/
theorem primaryAttempt_single_line (st : DBState) (f : File) (c : String)
    (hh : f.sniffHeader = true) (h1 : ∃ l, csvLines c = [l]) :
    primaryAttempt st f c = (st, none) := by
  obtain ⟨l, hl⟩ := h1
  unfold primaryAttempt primaryRead pdReadCsv
  rw [hl, hh]
  simp

/-- Claim C9 — confirmed.  The fallback re-parse of line 113 passes no
delimiter, so pandas splits on the default comma whatever the sniffer
inferred for the primary attempt: on a file routed to the fallback, the
whole per-file result is unchanged when the sniffed delimiter is replaced
by an arbitrary character, and the fallback attempt itself never reads
the sniffed delimiter. -/
theorem c9_fallback_uses_comma (st : DBState) (f : File) (c : String) (d : Char)
    (hh : f.sniffHeader = true) (h1 : ∃ l, csvLines c = [l]) :
    processFile st { f with sniffDelim := d } c = processFile st f c ∧
    (primaryAttempt st f c).2 = none ∧
    fallbackAttempt st { f with sniffDelim := d } c = fallbackAttempt st f c := by
  rcases f with ⟨n, co, sd, sh, p1, p2⟩
  simp only at hh
  subst hh
  refine ⟨?_, ?_, rfl⟩
  · unfold processFile
    rw [primaryAttempt_single_line st _ c rfl h1, primaryAttempt_single_line st _ c rfl h1]
    rfl
  · rw [primaryAttempt_single_line st _ c rfl h1]

/-- Witness for C9's theorem: a semicolon-separated single-line file with
a sniffed header and sniffed tab delimiter; additionally the stored row
shows the comma split (the semicolon survives inside the first field). -/
theorem c9_fallback_uses_comma_witness :
    processFile st0 { exF9 with sniffDelim := '\t' } "a;b,c" = processFile st0 exF9 "a;b,c" ∧
    (tableLookup (processFile st0 exF9 "a;b,c").1 "csv_table_w").map (fun t => t.rows) =
      some [["a;b", "c", rowHash ["a;b", "c"]]] :=
  ⟨(c9_fallback_uses_comma st0 exF9 "a;b,c" '\t' (by decide) ⟨"a;b,c", by decide⟩).1,
   by decide⟩

/-- Ledger writes leave the tables untouched, so lookups are unchanged. -/
theorem tableLookup_ledgerPut (st : DBState) (n h m : String) :
    tableLookup (ledgerPut st n h) m = tableLookup st m := rfl

/-- Creating a fresh table appends it to the store. -/
theorem createTableIfAbsent_fresh {st : DBState} {n : String} {cs : List String}
    (h : tableLookup st n = none) :
    (createTableIfAbsent st n cs).tables = st.tables ++ [(n, ⟨cs, []⟩)] := by
  unfold createTableIfAbsent
  simp only [h]

/-- A freshly created table is found empty with the given columns. -/
theorem tableLookup_create_fresh {st : DBState} {n : String} {cs : List String}
    (h : tableLookup st n = none) :
    tableLookup (createTableIfAbsent st n cs) n = some ⟨cs, []⟩ := by
  have hf : st.tables.find? (fun e => e.1 = n) = none := by
    unfold tableLookup at h
    rcases hfind : st.tables.find? (fun e => e.1 = n) with - | e
    · exact hfind
    · rw [hfind] at h
      simp at h
  unfold tableLookup
  rw [createTableIfAbsent_fresh h, List.find?_append, hf, Option.none_or]
  simp [List.find?]

/-- Appending rows to a table preserves every table's column list. -/
theorem find?_map_columns (n m : String) (rs : List (List String)) :
    ∀ l : List (String × Table),
      ((l.map (fun e =>
        if e.1 = n then (e.1, Table.mk e.2.columns (e.2.rows ++ rs)) else e)).find?
          (fun e => e.1 = m)).map (fun e => e.2.columns) =
      (l.find? (fun e => e.1 = m)).map (fun e => e.2.columns)
  | [] => rfl
  | e :: l => by
    by_cases hem : e.1 = m
    · have h1 : ((if e.1 = n then (e.1, Table.mk e.2.columns (e.2.rows ++ rs)) else e)).1 = m := by
        by_cases hen : e.1 = n
        · rw [if_pos hen]; exact hem
        · rw [if_neg hen]; exact hem
      rw [List.map_cons, List.find?_cons_of_pos _ (by simp [h1]),
        List.find?_cons_of_pos _ (by simp [hem])]
      by_cases hen : e.1 = n
      · rw [if_pos hen]; rfl
      · rw [if_neg hen]
    · have h1 : ¬ ((if e.1 = n then (e.1, Table.mk e.2.columns (e.2.rows ++ rs)) else e)).1 = m := by
        by_cases hen : e.1 = n
        · rw [if_pos hen]; exact hem
        · rw [if_neg hen]; exact hem
      rw [List.map_cons, List.find?_cons_of_neg _ (by simp [h1]),
        List.find?_cons_of_neg _ (by simp [hem])]
      exact find?_map_columns n m rs l

/-- Column lists are invariant under `appendRows`. -/
theorem tableLookup_appendRows_columns (st : DBState) (n m : String) (rs : List (List String)) :
    (tableLookup (appendRows st n rs) m).map (fun t => t.columns) =
    (tableLookup st m).map (fun t => t.columns) := by
  unfold tableLookup appendRows
  simp only [Option.map_map, Function.comp_def]
  exact find?_map_columns n m rs st.tables

/-- A table created by this pipeline answers `SELECT _hash` with no rows. -/
theorem selectHashes_fresh (cs : List String) :
    selectHashes ⟨cs ++ ["_hash"], []⟩ = some [] := by
  unfold selectHashes
  have hne : (cs ++ ["_hash"]).findIdx? (fun c => c = "_hash") ≠ none := by
    rw [Ne, List.findIdx?_eq_none_iff]
    intro hall
    have := hall "_hash" (by simp)
    simp at this
  rcases hidx : (cs ++ ["_hash"]).findIdx? (fun c => c = "_hash") with - | i
  · exact absurd hidx hne
  · simp only [hidx]
    rfl

/-- When the target table does not exist yet, the persist stage creates
it with exactly the requested data columns plus `_hash`, whatever happens
afterwards. -/
theorem persistStage_fresh_columns (st : DBState) (tname : String) (cols : List String)
    (rows : List (List String)) (flagOk : Bool) (fname h : String) (outc : Outcome)
    (hfresh : tableLookup st tname = none) :
    (tableLookup (persistStage st tname cols rows flagOk fname h outc).1 tname).map
      (fun t => t.columns) = some (cols ++ ["_hash"]) := by
  have hcreate : tableLookup (createTableIfAbsent st tname (cols ++ ["_hash"])) tname =
      some ⟨cols ++ ["_hash"], []⟩ := tableLookup_create_fresh hfresh
  unfold persistStage
  simp only [hcreate, selectHashes_fresh]
  by_cases hempty : (dedupe rows []).isEmpty = true
  · rw [if_pos hempty]
    show (tableLookup (ledgerPut _ fname h) tname).map (fun t => t.columns) = _
    rw [tableLookup_ledgerPut, hcreate]
    rfl
  · rw [if_neg hempty]
    by_cases hflag : flagOk = true
    · rw [if_pos hflag]
      have hsql : to_sql_append (createTableIfAbsent st tname (cols ++ ["_hash"])) tname
          (cols ++ ["_hash"]) (withHash (dedupe rows [])) =
          some (appendRows (createTableIfAbsent st tname (cols ++ ["_hash"])) tname
            ((withHash (dedupe rows [])).map
              (fun r => sqlInsert (cols ++ ["_hash"]) (cols ++ ["_hash"]) r))) := by
        unfold to_sql_append
        simp only [hcreate]
        rw [if_pos (all_contains_self (cols ++ ["_hash"]))]
      rw [hsql]
      show (tableLookup (ledgerPut _ fname h) tname).map (fun t => t.columns) = _
      rw [tableLookup_ledgerPut, tableLookup_appendRows_columns, hcreate]
      rfl
    · rw [if_neg hflag]
      rw [hcreate]
      rfl

/-- A primary path that raises before line 88 hands the caller's state to
the fallback unchanged. -/
theorem primaryAttempt_of_abandonsEarly {f : File} {c : String}
    (h : primaryAbandonsEarly f c = true) (st : DBState) :
    primaryAttempt st f c = (st, none) := by
  unfold primaryAbandonsEarly at h
  unfold primaryAttempt
  rcases hpr : primaryRead f.sniffDelim f.sniffHeader c with - | df
  · simp only [hpr]
  · rw [hpr] at h
    simp only [hpr]
    rw [if_pos h]

/-- When the primary attempt returns the state unchanged with an
exception, the per-file result state is the fallback's. -/
theorem processFile_fst_of_primary_none {st : DBState} {f : File} {c : String}
    (hskip : ¬ st.ledger.contains (f.name, fileHash c) = true)
    (hpa : primaryAttempt st f c = (st, none)) :
    (processFile st f c).1 = (fallbackAttempt st f c).1 := by
  unfold processFile
  rw [if_neg hskip]
  simp only [hpa]
  rcases hfb : fallbackAttempt st f c with ⟨st2, o2⟩
  rcases o2 with - | o <;> rfl

/-- Columns created by a fallback run on a fresh table: the first
`infer_columns_structure` of the comma-parsed columns, synthetic names,
plus `_hash`. -/
theorem fallbackAttempt_fresh_columns (st : DBState) (f : File) (c : String) (df : DF)
    (hdf : pdReadCsv ',' false c = some df)
    (hfresh : tableLookup st (generate_table_name f.name) = none) :
    (tableLookup (fallbackAttempt st f c).1 (generate_table_name f.name)).map
      (fun t => t.columns) =
    some ((List.range (min (infer_columns_structure st.ccc) df.columns.length)).map
      (fun i => "column_" ++ toString (i + 1)) ++ ["_hash"]) := by
  unfold fallbackAttempt
  simp only [hdf]
  exact persistStage_fresh_columns _ _ _ _ _ _ _ _ hfresh

/-- Claim C1 — corrected.  The fallback re-parse uses
`common_column_count[0]` — the column count of the FIRST file normalized
in the current run (or the hard-coded 5 when none has been) — not the
most recent successful count the claim describes; it then keeps that many
leading columns of every comma-parsed row, dropping the extras.  Stated
for a file whose primary path raises before line 88 and whose table does
not exist yet, so the created columns are observable. -/
theorem c1_fallback_first_count (st : DBState) (f : File) (c : String) (df : DF)
    (hskip : ¬ st.ledger.contains (f.name, fileHash c) = true)
    (habandon : primaryAbandonsEarly f c = true)
    (hfresh : tableLookup st (generate_table_name f.name) = none)
    (hdf : pdReadCsv ',' false c = some df) :
    infer_columns_structure st.ccc = st.ccc.headD 5 ∧
    (tableLookup (processFile st f c).1 (generate_table_name f.name)).map
      (fun t => t.columns) =
    some ((List.range (min (st.ccc.headD 5) df.columns.length)).map
      (fun i => "column_" ++ toString (i + 1)) ++ ["_hash"]) := by
  have hinfer : infer_columns_structure st.ccc = st.ccc.headD 5 := by
    rcases hccc : st.ccc with - | ⟨n, l⟩ <;> simp [infer_columns_structure, hccc]
  refine ⟨hinfer, ?_⟩
  rw [processFile_fst_of_primary_none hskip (primaryAttempt_of_abandonsEarly habandon st)]
  rw [← hinfer]
  exact fallbackAttempt_fresh_columns st f c df hdf hfresh

/-- Witness for C1's theorem: after importing files of widths 2 and 7,
the run memory is `[2, 7]`; a corrupt file re-parsed into 9 comma fields
gets `min 2 9 = 2` data columns. -/
theorem c1_fallback_first_count_witness :
    (import_csvs_to_db st0 [exF1a, exF1b]).1.ccc = [2, 7] ∧
    (tableLookup (processFile (import_csvs_to_db st0 [exF1a, exF1b]).1 exF1f
        "a,b,c,d,e,f,g,h,i").1 (generate_table_name exF1f.name)).map (fun t => t.columns) =
      some ["column_1", "column_2", "_hash"] := by
  have h := c1_fallback_first_count (import_csvs_to_db st0 [exF1a, exF1b]).1 exF1f
    "a,b,c,d,e,f,g,h,i"
    ⟨(List.range 9).map (fun i => toString i),
      [["a", "b", "c", "d", "e", "f", "g", "h", "i"]]⟩
    (by decide) (by decide) (by decide) (by decide)
  exact ⟨by decide, by rw [h.2]; decide⟩

/-- Counterexample to claim C1 as stated: in a run that normalized widths
2 and then 7, the most recent successful count is 7 (the claim's fallback
would keep 7 leading columns), but the code's fallback keeps
`common_column_count[0] = 2` of them. -/
theorem c1_counterexample :
    (import_csvs_to_db st0 [exF1a, exF1b]).1.ccc = [2, 7] ∧
    claimed_infer_columns [2, 7] = 7 ∧
    infer_columns_structure [2, 7] = 2 ∧
    (tableLookup (import_csvs_to_db st0 [exF1a, exF1b, exF1f]).1 "csv_table_f").map
      (fun t => t.columns) = some ["column_1", "column_2", "_hash"] ∧
    (tableLookup (import_csvs_to_db st0 [exF1a, exF1b, exF1f]).1 "csv_table_f").map
      (fun t => t.columns.length) ≠ some (claimed_infer_columns [2, 7] + 1) :=
  ⟨by decide, by decide, by decide, by decide, by decide⟩

/-- Identifier characters can appear in tokens. -/
theorem tokenChar_of_identChar {c : Char} (h : identChar c = true) : tokenChar c = true := by
  simp [tokenChar, h]

/-- Identifier-start characters are identifier characters. -/
theorem identChar_of_identStart {c : Char} (h : identStart c = true) : identChar c = true := by
  have h' : c.isAlpha = true ∨ c = '_' := by
    simpa [identStart] using h
  rcases h' with ha | hu
  · simp [identChar, Char.isAlphanum, ha]
  · simp [identChar, hu]

/-- Digits are identifier characters. -/
theorem identChar_of_isDigit {c : Char} (h : c.isDigit = true) : identChar c = true := by
  simp [identChar, Char.isAlphanum, h]

/-- A non-`p` element survives `dropWhile p`. -/
theorem mem_dropWhile_of_not {p : Char → Bool} {a : Char} :
    ∀ {l : List Char}, a ∈ l → p a = false → a ∈ l.dropWhile p := by
  intro l
  induction l with
  | nil => intro h _; exact absurd h (List.not_mem_nil a)
  | cons c cs ih =>
    intro hmem hpa
    by_cases hpc : p c = true
    · rw [List.dropWhile_cons_of_pos hpc]
      rcases List.mem_cons.mp hmem with he | hm
      · rw [he] at hpa; rw [hpa] at hpc; exact absurd hpc (by simp)
      · exact ih hm hpa
    · rw [List.dropWhile_cons_of_neg (by simpa using hpc)]
      exact hmem

/-- A character outside the token alphabet makes tokenization fail, as
SQLite's `unrecognized token` error does. -/
theorem tokAux_bad : ∀ (f : Nat) (cs : List Char),
    (∃ ch ∈ cs, tokenChar ch = false) → tokAux f cs = none := by
  intro f
  induction f with
  | zero =>
    rintro cs ⟨ch, hmem, -⟩
    rcases cs with - | ⟨c, cs'⟩
    · exact absurd hmem (List.not_mem_nil ch)
    · rfl
  | succ f ih =>
    rintro cs ⟨ch, hmem, hbad⟩
    rcases cs with - | ⟨c, cs'⟩
    · exact absurd hmem (List.not_mem_nil ch)
    · have hbadIdent : identChar ch = false := by
        rcases hic : identChar ch with - | -
        · rfl
        · rw [tokenChar_of_identChar hic] at hbad; exact absurd hbad (by simp)
      have hcs' : tokenChar c = true → ch ∈ cs' := by
        intro hctc
        rcases List.mem_cons.mp hmem with he | hm
        · rw [he] at hbad; rw [hbad] at hctc; exact absurd hctc (by simp)
        · exact hm
      by_cases h1 : c = ' '
      · subst h1
        have hrec := ih cs' ⟨ch, hcs' (by decide), hbad⟩
        simp [tokAux, hrec]
      · by_cases h2 : c = '('
        · subst h2
          have hrec := ih cs' ⟨ch, hcs' (by decide), hbad⟩
          simp [tokAux, hrec]
        · by_cases h3 : c = ')'
          · subst h3
            have hrec := ih cs' ⟨ch, hcs' (by decide), hbad⟩
            simp [tokAux, hrec]
          · by_cases h4 : c = '?'
            · subst h4
              have hrec := ih cs' ⟨ch, hcs' (by decide), hbad⟩
              simp [tokAux, hrec]
            · by_cases h5 : identStart c = true
              · have hctc : tokenChar c = true :=
                  tokenChar_of_identChar (identChar_of_identStart h5)
                have hrec := ih _ ⟨ch, mem_dropWhile_of_not (hcs' hctc) hbadIdent, hbad⟩
                simp only [tokAux]
                rw [if_neg h1, if_neg h2, if_neg h3, if_neg h4, if_pos h5]
                rcases hcw : classifyWord (String.mk (c :: cs'.takeWhile identChar)) with - | tk
                · rfl
                · rw [hrec]
                  rfl
              · by_cases h6 : c.isDigit = true
                · have hctc : tokenChar c = true :=
                    tokenChar_of_identChar (identChar_of_isDigit h6)
                  have hrec := ih _ ⟨ch, mem_dropWhile_of_not (hcs' hctc) hbadIdent, hbad⟩
                  simp only [tokAux]
                  rw [if_neg h1, if_neg h2, if_neg h3, if_neg h4, if_neg h5, if_pos h6]
                  by_cases h7 : ((cs'.takeWhile identChar).all (fun c0 => c0.isDigit)) = true
                  · rw [if_pos h7, hrec]
                    rfl
                  · rw [if_neg h7]
                · simp only [tokAux]
                  rw [if_neg h1, if_neg h2, if_neg h3, if_neg h4, if_neg h5, if_neg h6]

/-- A character of a joined member occurs in the joined string. -/
theorem mem_toList_joinWith {ch : Char} {sep : String} :
    ∀ {l : List String} {s : String}, s ∈ l → ch ∈ s.toList →
      ch ∈ (joinWith sep l).toList := by
  intro l
  induction l with
  | nil => intro s hs _; exact absurd hs (List.not_mem_nil s)
  | cons a l ih =>
    intro s hs hch
    rcases l with - | ⟨b, l'⟩
    · have he : s = a := by simpa using hs
      subst he
      simpa [joinWith] using hch
    · rcases List.mem_cons.mp hs with he | hm
      · subst he
        show ch ∈ (s ++ sep ++ joinWith sep (b :: l')).toList
        simp only [String.toList, String.data_append, List.mem_append]
        exact Or.inl (Or.inl hch)
      · have hrec := ih hm hch
        show ch ∈ (a ++ sep ++ joinWith sep (b :: l')).toList
        simp only [String.toList, String.data_append, List.mem_append]
        exact Or.inr hrec

/-- A character of any interpolated column name occurs in the generated
WHERE-clause text. -/
theorem badchar_mem_buildWhere {cols terms : List String} {col : String} {ch : Char}
    (hcol : col ∈ cols) (hch : ch ∈ col.toList) (hterms : terms ≠ []) :
    ch ∈ (buildWhere cols terms).toList := by
  unfold buildWhere
  have h1 : ch ∈ (col ++ " LIKE ?").toList := by
    simp only [String.toList, String.data_append, List.mem_append]
    exact Or.inl hch
  have h2 : (col ++ " LIKE ?") ∈ cols.map (fun c => c ++ " LIKE ?") :=
    List.mem_map_of_mem _ hcol
  have hg : ch ∈ ("(" ++ joinWith " OR " (cols.map (fun c => c ++ " LIKE ?")) ++ ")").toList := by
    simp only [String.toList, String.data_append, List.mem_append]
    exact Or.inl (Or.inr (mem_toList_joinWith h2 h1))
  rcases terms with - | ⟨t, ts⟩
  · exact absurd rfl hterms
  · exact mem_toList_joinWith (List.mem_map_of_mem _ (List.mem_cons_self t ts)) hg

/-- Claim C10 — corrected (sound half).  A non-`_hash` column name holding
a character that SQLite cannot tokenize (caret, backslash or a curly
bracket) makes the interpolated query fail to compile; the error is
caught per table (modelled by the `none` result) and the table
contributes no rows, while the sweep over other tables continues.  Not
every invalid bare identifier errors, though — see the counterexample. -/
theorem c10_bad_column_errors (t : Table) (kw : String)
    (hterms : pySplit kw ≠ [])
    (hbad : ∃ col ∈ t.columns.filter (fun c => c ≠ "_hash"),
      ∃ ch ∈ col.toList, sqlHostileChar ch = true) :
    searchTable t kw = none ∧
    ∀ (st : DBState) (tname : String), (tname, t) ∈ st.tables →
      strHasPfx tname tableNamePfx = true → (tname, none) ∈ search_db st kw := by
  obtain ⟨col, hcolmem, ch, hch, hhostile⟩ := hbad
  have hbadch : tokenChar ch = false := by
    have h' : ch = '^' ∨ ch = '\\' ∨ ch = '\x7b' ∨ ch = '\x7d' := by
      simpa [sqlHostileChar, or_assoc] using hhostile
    rcases h' with h | h | h | h <;> subst h <;> decide
  have hcol : col ∈ t.columns := (List.mem_filter.mp hcolmem).1
  have hmain : searchTable t kw = none := by
    unfold searchTable
    have hne : ¬ t.columns.isEmpty = true := by
      intro hemp
      rw [List.isEmpty_iff] at hemp
      rw [hemp] at hcol
      exact absurd hcol (List.not_mem_nil col)
    rw [if_neg hne]
    unfold sqlExec
    have htok : tokenize (buildWhere (t.columns.filter (fun c => c ≠ "_hash"))
        (pySplit kw)).toList = none :=
      tokAux_bad _ _ ⟨ch, badchar_mem_buildWhere hcolmem hch hterms, hbadch⟩
    simp only [htok]
    rfl
  refine ⟨hmain, ?_⟩
  intro st tname hmem hpfx
  have hfil : (tname, t) ∈ st.tables.filter (fun e => strHasPfx e.1 tableNamePfx) :=
    List.mem_filter.mpr ⟨hmem, by simpa using hpfx⟩
  have := List.mem_map_of_mem (fun e : String × Table => (e.1, searchTable e.2 kw)) hfil
  simpa [search_db, hmain] using this

/-- Witness for C10's theorem: a column named `first^name` makes the
search of its table error out and return nothing. -/
theorem c10_bad_column_errors_witness :
    searchTable ⟨["first^name", "_hash"], [["john", "h1"]]⟩ "john" = none :=
  (c10_bad_column_errors ⟨["first^name", "_hash"], [["john", "h1"]]⟩ "john"
    (by decide) ⟨"first^name", by decide, '^', by decide, by decide⟩).1

/-- Counterexample to claim C10 as stated: the table `exT10` stores the
column name `not y`, which is not a valid bare SQL identifier, yet the
interpolated text `(y LIKE ? OR not y LIKE ?)` parses as
`y LIKE ? OR NOT (y LIKE ?)` — a tautology — so the search raises no
error and returns the table's row even for a keyword matching nothing. -/
theorem c10_counterexample :
    simpleIdent "not y" = false ∧
    "not y" ∈ exT10.columns ∧
    searchTable exT10 "zzz" = some [["john", "x"]] ∧
    search_db exSt10 "zzz" = [("csv_table_t", some [["john", "x"]])] :=
  ⟨by decide, by decide, by decide, by decide⟩

/-- Counterexample to claim C4 as stated: `john` is not a case-sensitive
substring of the stored value `JOHN`, yet the row is returned — SQLite's
`LIKE` is case-insensitive on ASCII by default, and the code's query uses
plain `LIKE`. -/
theorem c4_counterexample :
    ¬ ("john".toList <:+: "JOHN".toList) ∧
    searchTable exT4 "john" = some [["JOHN"]] :=
  ⟨by decide, by decide⟩

/-- Tokenization does not depend on the fuel once it covers the input
length. -/
theorem tokAux_fuel_eq : ∀ (n f g : Nat) (cs : List Char), cs.length ≤ f → cs.length ≤ g →
    f ≤ n → g ≤ n → tokAux f cs = tokAux g cs := by
  intro n
  induction n with
  | zero =>
    intro f g cs hf hg hfn hgn
    rw [Nat.le_zero.mp hfn, Nat.le_zero.mp hgn]
  | succ n ih =>
    intro f g cs hf hg hfn hgn
    rcases cs with - | ⟨c, cs'⟩
    · simp [tokAux]
    · rcases f with - | f'
      · exact absurd hf (by simp)
      · rcases g with - | g'
        · exact absurd hg (by simp)
        · have hf' : cs'.length ≤ f' := Nat.succ_le_succ_iff.mp hf
          have hg' : cs'.length ≤ g' := Nat.succ_le_succ_iff.mp hg
          have hx : ∀ X : List Char, X.length ≤ cs'.length → tokAux f' X = tokAux g' X := by
            intro X hX
            exact ih f' g' X (le_trans hX hf') (le_trans hX hg')
              (Nat.succ_le_succ_iff.mp hfn) (Nat.succ_le_succ_iff.mp hgn)
          simp only [tokAux]
          rw [hx cs' (le_refl _),
            hx (cs'.dropWhile identChar) ((List.dropWhile_sublist identChar).length_le)]

/-- Tokenization via any sufficient fuel agrees with `tokenize`. -/
theorem tokAux_eq_tokenize {f : Nat} {cs : List Char} (h : cs.length ≤ f) :
    tokAux f cs = tokenize cs :=
  tokAux_fuel_eq (max f cs.length) f cs.length cs h (le_refl _)
    (le_max_left _ _) (le_max_right _ _)

/-- Splitting `takeWhile`/`dropWhile` across an append whose first part
satisfies the predicate throughout and whose second part starts failing
it. -/
theorem takeWhile_dropWhile_append {p : Char → Bool} :
    ∀ (l1 l2 : List Char), (∀ a ∈ l1, p a = true) →
      (∀ x, l2.head? = some x → p x = false) →
      (l1 ++ l2).takeWhile p = l1 ∧ (l1 ++ l2).dropWhile p = l2 := by
  intro l1
  induction l1 with
  | nil =>
    intro l2 _ hl2
    rcases l2 with - | ⟨x, xs⟩
    · exact ⟨rfl, rfl⟩
    · have hx : p x = false := hl2 x rfl
      exact ⟨List.takeWhile_cons_of_neg (by simp [hx]),
        List.dropWhile_cons_of_neg (by simp [hx])⟩
  | cons a l1 ih =>
    intro l2 hall hl2
    have hpa : p a = true := hall a (List.mem_cons_self a l1)
    obtain ⟨htake, hdrop⟩ := ih l2 (fun x hx => hall x (List.mem_cons_of_mem a hx)) hl2
    refine ⟨?_, ?_⟩
    · rw [List.cons_append, List.takeWhile_cons_of_pos hpa, htake]
    · rw [List.cons_append, List.dropWhile_cons_of_pos hpa, hdrop]

/-- Tokenizer equation: leading blank. -/
theorem tokenize_space (cs : List Char) : tokenize (' ' :: cs) = tokenize cs := by
  simp [tokenize, tokAux]

/-- Tokenizer equation: opening parenthesis. -/
theorem tokenize_lp (cs : List Char) :
    tokenize ('(' :: cs) = (tokenize cs).map (fun ts => Tok.tlp :: ts) := by
  simp [tokenize, tokAux]

/-- Tokenizer equation: closing parenthesis. -/
theorem tokenize_rp (cs : List Char) :
    tokenize (')' :: cs) = (tokenize cs).map (fun ts => Tok.trp :: ts) := by
  simp [tokenize, tokAux]

/-- Tokenizer equation: placeholder. -/
theorem tokenize_qm (cs : List Char) :
    tokenize ('?' :: cs) = (tokenize cs).map (fun ts => Tok.tqm :: ts) := by
  simp [tokenize, tokAux]

/-- Tokenizer equation: a maximal identifier-shaped word followed by a
non-identifier character (or the end). -/
theorem tokenize_word (c : Char) (w' rest : List Char)
    (hstart : identStart c = true)
    (hall : ∀ a ∈ w', identChar a = true)
    (hrest : ∀ x, rest.head? = some x → identChar x = false) :
    tokenize ((c :: w') ++ rest) =
      match classifyWord (String.mk (c :: w')) with
      | none => none
      | some t => (tokenize rest).map (fun ts => t :: ts) := by
  obtain ⟨htake, hdrop⟩ := takeWhile_dropWhile_append w' rest hall hrest
  have h1 : ¬ c = ' ' := fun h => by rw [h] at hstart; exact absurd hstart (by decide)
  have h2 : ¬ c = '(' := fun h => by rw [h] at hstart; exact absurd hstart (by decide)
  have h3 : ¬ c = ')' := fun h => by rw [h] at hstart; exact absurd hstart (by decide)
  have h4 : ¬ c = '?' := fun h => by rw [h] at hstart; exact absurd hstart (by decide)
  show tokAux ((c :: w') ++ rest).length ((c :: w') ++ rest) = _
  rw [List.cons_append]
  simp only [List.length_cons, tokAux]
  rw [if_neg h1, if_neg h2, if_neg h3, if_neg h4, if_pos hstart, htake, hdrop]
  rcases hcw : classifyWord (String.mk (c :: w')) with - | t
  · rfl
  · rw [tokAux_eq_tokenize (by
      have := List.length_append w' rest
      omega)]

/-- A simple identifier classifies as a plain identifier token. -/
theorem classifyWord_of_simpleIdent {s : String} (h : simpleIdent s = true) :
    classifyWord s = some (Tok.tid s) := by
  unfold simpleIdent at h
  rw [Bool.and_eq_true] at h
  have hcontain : ((["like", "or", "and", "not"] ++ sqlReserved).contains (lcStr s)) = false := by
    rcases hcon : ((["like", "or", "and", "not"] ++ sqlReserved).contains (lcStr s)) with - | -
    · rfl
    · rw [hcon] at h
      exact absurd h.2 (by simp)
  have hnotmem : lcStr s ∉ (["like", "or", "and", "not"] ++ sqlReserved) := by
    intro hm
    have hcon : ((["like", "or", "and", "not"] ++ sqlReserved).contains (lcStr s)) = true := by
      simpa using hm
    rw [hcontain] at hcon
    exact absurd hcon (by simp)
  have hk1 : ¬ lcStr s = "like" := fun he => hnotmem (by rw [he]; simp)
  have hk2 : ¬ lcStr s = "or" := fun he => hnotmem (by rw [he]; simp)
  have hk3 : ¬ lcStr s = "and" := fun he => hnotmem (by rw [he]; simp)
  have hk4 : ¬ lcStr s = "not" := fun he => hnotmem (by rw [he]; simp)
  have hres : ¬ sqlReserved.contains (lcStr s) = true := by
    intro hr
    exact hnotmem (List.mem_append_right _ (by simpa using hr))
  unfold classifyWord
  rw [if_neg hk1, if_neg hk2, if_neg hk3, if_neg hk4, if_neg hres]

/-- Tokenization of the generated ` LIKE ?` tail. -/
theorem tokenize_like_qm (rest : List Char) :
    tokenize (' ' :: 'L' :: 'I' :: 'K' :: 'E' :: ' ' :: '?' :: rest) =
      (tokenize rest).map (fun ts => Tok.tlike :: Tok.tqm :: ts) := by
  rw [tokenize_space]
  have hword := tokenize_word 'L' ['I', 'K', 'E'] (' ' :: '?' :: rest) (by decide) (by decide)
    (fun x hx => by simp at hx; rw [← hx]; decide)
  simp only [List.cons_append, List.nil_append] at hword
  rw [hword]
  have hlike : classifyWord (String.mk ['L', 'I', 'K', 'E']) = some Tok.tlike := by decide
  simp only [hlike, tokenize_space, tokenize_qm]
  rcases tokenize rest with - | ts <;> rfl

/-- Tokenization of the generated ` OR ` separator. -/
theorem tokenize_or_sep (rest : List Char) :
    tokenize (' ' :: 'O' :: 'R' :: ' ' :: rest) =
      (tokenize rest).map (fun ts => Tok.tdisj :: ts) := by
  rw [tokenize_space]
  have hword := tokenize_word 'O' ['R'] (' ' :: rest) (by decide) (by decide)
    (fun x hx => by simp at hx; rw [← hx]; decide)
  simp only [List.cons_append, List.nil_append] at hword
  rw [hword]
  have hor : classifyWord (String.mk ['O', 'R']) = some Tok.tdisj := by decide
  simp only [hor, tokenize_space]

/-- Tokenization of the generated ` AND ` separator. -/
theorem tokenize_and_sep (rest : List Char) :
    tokenize (' ' :: 'A' :: 'N' :: 'D' :: ' ' :: rest) =
      (tokenize rest).map (fun ts => Tok.tconj :: ts) := by
  rw [tokenize_space]
  have hword := tokenize_word 'A' ['N', 'D'] (' ' :: rest) (by decide) (by decide)
    (fun x hx => by simp at hx; rw [← hx]; decide)
  simp only [List.cons_append, List.nil_append] at hword
  rw [hword]
  have hand : classifyWord (String.mk ['A', 'N', 'D']) = some Tok.tconj := by decide
  simp only [hand, tokenize_space]

/-- Tokenization of one generated `col LIKE ?` fragment. -/
theorem tokenize_ident_like (col : String) (rest : List Char)
    (h : simpleIdent col = true) :
    tokenize (col.toList ++ (' ' :: 'L' :: 'I' :: 'K' :: 'E' :: ' ' :: '?' :: rest)) =
      (tokenize rest).map (fun ts => Tok.tid col :: Tok.tlike :: Tok.tqm :: ts) := by
  have hshape : ∃ c w', col.toList = c :: w' ∧ identStart c = true ∧
      ∀ a ∈ w', identChar a = true := by
    have h' := h
    unfold simpleIdent at h'
    rcases hc : col.toList with - | ⟨c, w'⟩
    · rw [hc] at h'; simp at h'
    · rw [hc] at h'
      simp only [Bool.and_eq_true] at h'
      refine ⟨c, w', rfl, h'.1.1, ?_⟩
      intro a ha
      exact List.all_eq_true.mp h'.1.2 a ha
  obtain ⟨c, w', hc, hstart, hall⟩ := hshape
  rw [hc, tokenize_word c w' _ hstart hall
    (fun x hx => by simp at hx; rw [← hx]; decide)]
  have hmk : String.mk (c :: w') = col := by rw [← hc]; rfl
  simp only [hmk, classifyWord_of_simpleIdent h, tokenize_like_qm]
  rcases tokenize rest with - | ts <;> rfl

/-- Characters of an appended string. -/
theorem strToList_append (a b : String) : (a ++ b).toList = a.toList ++ b.toList := by
  simp [String.toList, String.data_append]

/-- Tokenization of the generated `OR` chain over the columns, followed by
arbitrary text. -/
theorem tokenize_orChain :
    ∀ (cols : List String), cols ≠ [] → (∀ c ∈ cols, simpleIdent c = true) →
      ∀ rest : List Char,
      tokenize ((joinWith " OR " (cols.map (fun c => c ++ " LIKE ?"))).toList ++ rest) =
        (tokenize rest).map (fun ts => orToks cols ++ ts) := by
  intro cols
  induction cols with
  | nil => intro h; exact absurd rfl h
  | cons a l ih =>
    intro _ hid rest
    have hpat : (" LIKE ?" : String).toList = ' ' :: 'L' :: 'I' :: 'K' :: 'E' :: ' ' :: '?' :: [] := rfl
    have hsep : (" OR " : String).toList = ' ' :: 'O' :: 'R' :: ' ' :: [] := rfl
    rcases l with - | ⟨b, l'⟩
    · show tokenize ((a ++ " LIKE ?").toList ++ rest) = _
      rw [strToList_append, hpat]
      simp only [List.append_assoc, List.cons_append, List.nil_append]
      rw [tokenize_ident_like a rest (hid a (List.mem_cons_self a []))]
      rcases tokenize rest with - | ts <;> rfl
    · show tokenize (((a ++ " LIKE ?") ++ " OR " ++
        joinWith " OR " ((b :: l').map (fun c => c ++ " LIKE ?"))).toList ++ rest) = _
      rw [strToList_append, strToList_append, strToList_append, hpat, hsep]
      simp only [List.append_assoc, List.cons_append, List.nil_append]
      rw [tokenize_ident_like a _ (hid a (List.mem_cons_self a _))]
      rw [tokenize_or_sep]
      rw [ih (by simp) (fun c hc => hid c (List.mem_cons_of_mem a hc)) rest]
      rcases tokenize rest with - | ts <;> rfl

/-- Tokenization of one generated parenthesized group, followed by
arbitrary text. -/
theorem tokenize_group (cols : List String) (hne : cols ≠ [])
    (hid : ∀ c ∈ cols, simpleIdent c = true) (rest : List Char) :
    tokenize (("(" ++ joinWith " OR " (cols.map (fun c => c ++ " LIKE ?")) ++ ")").toList ++ rest) =
      (tokenize rest).map (fun ts => groupToks cols ++ ts) := by
  rw [strToList_append, strToList_append]
  have hlp : ("(" : String).toList = ['('] := rfl
  have hrp : (")" : String).toList = [')'] := rfl
  rw [hlp, hrp]
  simp only [List.append_assoc, List.cons_append, List.nil_append]
  rw [tokenize_lp, tokenize_orChain cols hne hid (')' :: rest), tokenize_rp]
  rcases tokenize rest with - | ts <;> simp [groupToks]

/-- Tokenization of the whole generated WHERE clause. -/
theorem tokenize_buildWhere (cols : List String) (hne : cols ≠ [])
    (hid : ∀ c ∈ cols, simpleIdent c = true) :
    ∀ (terms : List String), terms ≠ [] →
      tokenize (buildWhere cols terms).toList = some (clauseToksL cols terms) := by
  intro terms
  induction terms with
  | nil => intro h; exact absurd rfl h
  | cons t ts ih =>
    intro _
    rcases ts with - | ⟨t2, ts'⟩
    · show tokenize (("(" ++ joinWith " OR " (cols.map (fun c => c ++ " LIKE ?")) ++ ")").toList) = _
      rw [← List.append_nil (("(" ++ joinWith " OR " (cols.map (fun c => c ++ " LIKE ?")) ++ ")").toList)]
      rw [tokenize_group cols hne hid []]
      simp [tokenize, tokAux, clauseToksL]
    · show tokenize ((("(" ++ joinWith " OR " (cols.map (fun c => c ++ " LIKE ?")) ++ ")") ++ " AND " ++
        joinWith " AND " ((t2 :: ts').map (fun _ =>
          "(" ++ joinWith " OR " (cols.map (fun c => c ++ " LIKE ?")) ++ ")"))).toList) = _
      rw [strToList_append, strToList_append]
      have hand : (" AND " : String).toList = ' ' :: 'A' :: 'N' :: 'D' :: ' ' :: [] := rfl
      rw [hand]
      simp only [List.append_assoc, List.cons_append, List.nil_append]
      rw [tokenize_group cols hne hid _, tokenize_and_sep]
      have ihh := ih (by simp)
      unfold buildWhere at ihh
      rw [ihh]
      simp [clauseToksL]

/-- Length of the generated `OR` chain tokens. -/
theorem orToks_length : ∀ (cols : List String), cols ≠ [] →
    (orToks cols).length + 1 = 4 * cols.length := by
  intro cols
  induction cols with
  | nil => intro h; exact absurd rfl h
  | cons a l ih =>
    intro _
    rcases l with - | ⟨b, l'⟩
    · simp [orToks]
    · have := ih (by simp)
      simp only [orToks, List.length_cons] at this ⊢
      omega

/-- One parser step: disjunction level on an identifier-headed input. -/
theorem pdisj_id (f k : Nat) (s : String) (ts : List Tok) :
    parseE (f + 1) Lvl.ldisj (Tok.tid s :: ts) k =
      (match parseE f Lvl.lconj (Tok.tid s :: ts) k with
       | some (e, Tok.tdisj :: ts1, k1) =>
         (match parseE f Lvl.ldisj ts1 k1 with
          | some (e2, ts2, k2) => some (Expr.eor e e2, ts2, k2)
          | none => none)
       | r => r) := rfl

/-- One parser step: conjunction level on an identifier-headed input. -/
theorem pconj_id (f k : Nat) (s : String) (ts : List Tok) :
    parseE (f + 1) Lvl.lconj (Tok.tid s :: ts) k =
      (match parseE f Lvl.lneg (Tok.tid s :: ts) k with
       | some (e, Tok.tconj :: ts1, k1) =>
         (match parseE f Lvl.lconj ts1 k1 with
          | some (e2, ts2, k2) => some (Expr.eand e e2, ts2, k2)
          | none => none)
       | r => r) := rfl

/-- One parser step: negation level falls through on an identifier. -/
theorem pneg_id (f k : Nat) (s : String) (ts : List Tok) :
    parseE (f + 1) Lvl.lneg (Tok.tid s :: ts) k =
      parseE f Lvl.llike (Tok.tid s :: ts) k := rfl

/-- One parser step: like level on an identifier-headed input. -/
theorem plike_id (f k : Nat) (s : String) (ts : List Tok) :
    parseE (f + 1) Lvl.llike (Tok.tid s :: ts) k =
      (match parseE f Lvl.lprim (Tok.tid s :: ts) k with
       | some (e, Tok.tlike :: ts1, k1) =>
         (match parseE f Lvl.lprim ts1 k1 with
          | some (p, ts2, k2) => some (Expr.elike e p, ts2, k2)
          | none => none)
       | r => r) := rfl

/-- One parser step: primary level consumes an identifier. -/
theorem pprim_id (f k : Nat) (s : String) (ts : List Tok) :
    parseE (f + 1) Lvl.lprim (Tok.tid s :: ts) k = some (Expr.ecol s, ts, k) := rfl

/-- One parser step: primary level consumes a placeholder. -/
theorem pprim_qm (f k : Nat) (ts : List Tok) :
    parseE (f + 1) Lvl.lprim (Tok.tqm :: ts) k = some (Expr.eph k, ts, k + 1) := rfl

/-- One parser step: conjunction level on a parenthesis-headed input. -/
theorem pconj_lp (f k : Nat) (ts : List Tok) :
    parseE (f + 1) Lvl.lconj (Tok.tlp :: ts) k =
      (match parseE f Lvl.lneg (Tok.tlp :: ts) k with
       | some (e, Tok.tconj :: ts1, k1) =>
         (match parseE f Lvl.lconj ts1 k1 with
          | some (e2, ts2, k2) => some (Expr.eand e e2, ts2, k2)
          | none => none)
       | r => r) := rfl

/-- One parser step: negation level falls through on a parenthesis. -/
theorem pneg_lp (f k : Nat) (ts : List Tok) :
    parseE (f + 1) Lvl.lneg (Tok.tlp :: ts) k =
      parseE f Lvl.llike (Tok.tlp :: ts) k := rfl

/-- One parser step: like level on a parenthesis-headed input. -/
theorem plike_lp (f k : Nat) (ts : List Tok) :
    parseE (f + 1) Lvl.llike (Tok.tlp :: ts) k =
      (match parseE f Lvl.lprim (Tok.tlp :: ts) k with
       | some (e, Tok.tlike :: ts1, k1) =>
         (match parseE f Lvl.lprim ts1 k1 with
          | some (p, ts2, k2) => some (Expr.elike e p, ts2, k2)
          | none => none)
       | r => r) := rfl

/-- One parser step: primary level on an opening parenthesis. -/
theorem pprim_lp (f k : Nat) (ts : List Tok) :
    parseE (f + 1) Lvl.lprim (Tok.tlp :: ts) k =
      (match parseE f Lvl.ldisj ts k with
       | some (e, Tok.trp :: ts2, k2) => some (e, ts2, k2)
       | _ => none) := rfl

/-- Parse of the generated `OR` chain at the disjunction level, stopping
at the closing parenthesis. -/
theorem parseE_orToks :
    ∀ (cols : List String), cols ≠ [] →
    ∀ (f k : Nat) (rest : List Tok),
      8 * (orToks cols ++ Tok.trp :: rest).length + 4 ≤ f →
      parseE f Lvl.ldisj (orToks cols ++ Tok.trp :: rest) k =
        some (orAst k cols, Tok.trp :: rest, k + cols.length) := by
  intro cols
  induction cols with
  | nil => intro h; exact absurd rfl h
  | cons a l ih =>
    intro _ f k rest hf
    rcases l with - | ⟨b, l'⟩
    · obtain ⟨g, rfl⟩ : ∃ g, f = g + 7 := ⟨f - 7, by simp at hf; omega⟩
      simp only [orToks, List.cons_append, List.nil_append]
      simp only [pdisj_id, pconj_id, pneg_id, plike_id, pprim_id, pprim_qm]
      simp [orAst]
    · obtain ⟨g, rfl⟩ : ∃ g, f = g + 7 := ⟨f - 7, by simp at hf; omega⟩
      have hrec := ih (by simp) (g + 6) (k + 1) rest (by
        simp only [orToks, List.length_cons, List.length_append] at hf ⊢
        omega)
      simp only [orToks, List.cons_append]
      simp only [pdisj_id, pconj_id, pneg_id, plike_id, pprim_id, pprim_qm]
      rw [hrec]
      simp [orAst]
      ring

/-- Parse of one generated parenthesized group at the primary level. -/
theorem parseE_groupToks (cols : List String) (hne : cols ≠ [])
    (f k : Nat) (rest : List Tok)
    (hf : 8 * (groupToks cols ++ rest).length + 8 ≤ f) :
    parseE f Lvl.lprim (groupToks cols ++ rest) k =
      some (orAst k cols, rest, k + cols.length) := by
  obtain ⟨g, rfl⟩ : ∃ g, f = g + 1 := ⟨f - 1, by simp [groupToks] at hf; omega⟩
  have hrec := parseE_orToks cols hne g k rest (by
    simp only [groupToks, List.length_cons, List.length_append] at hf ⊢
    omega)
  simp only [groupToks, List.cons_append]
  rw [pprim_lp]
  rw [show (orToks cols ++ [Tok.trp]) ++ rest = orToks cols ++ Tok.trp :: rest by simp]
  rw [hrec]

/-- Parse of the whole generated clause at the conjunction level. -/
theorem parseE_clauseToks (cols : List String) (hne : cols ≠ []) :
    ∀ (terms : List String), terms ≠ [] →
    ∀ (f k : Nat), 8 * (clauseToksL cols terms).length + 12 ≤ f →
      parseE f Lvl.lconj (clauseToksL cols terms) k =
        some (clauseAstL cols k terms, [], k + terms.length * cols.length) := by
  intro terms
  induction terms with
  | nil => intro h; exact absurd rfl h
  | cons t ts ih =>
    intro _ f k hf
    rcases ts with - | ⟨t2, ts'⟩
    · obtain ⟨g, rfl⟩ : ∃ g, f = g + 4 := ⟨f - 4, by omega⟩
      have hrec := parseE_groupToks cols hne (g + 1) k [] (by
        simp only [clauseToksL] at hf
        simp only [List.append_nil]
        omega)
      rw [List.append_nil] at hrec
      simp only [clauseToksL]
      rw [show groupToks cols = Tok.tlp :: (orToks cols ++ [Tok.trp]) from rfl]
      rw [pconj_lp, pneg_lp, plike_lp]
      rw [show (Tok.tlp :: (orToks cols ++ [Tok.trp]) : List Tok) = groupToks cols from rfl]
      rw [hrec]
      simp [clauseAstL]
    · obtain ⟨g, rfl⟩ : ∃ g, f = g + 4 := ⟨f - 4, by omega⟩
      have hgrp := parseE_groupToks cols hne (g + 1) k
        (Tok.tconj :: clauseToksL cols (t2 :: ts')) (by
        simp only [clauseToksL, List.length_append, List.length_cons] at hf ⊢
        omega)
      have hrec := ih (by simp) (g + 3) (k + cols.length) (by
        simp only [clauseToksL, List.length_append, List.length_cons] at hf ⊢
        omega)
      simp only [clauseToksL]
      rw [show (groupToks cols ++ Tok.tconj :: clauseToksL cols (t2 :: ts')) =
        Tok.tlp :: ((orToks cols ++ [Tok.trp]) ++ Tok.tconj :: clauseToksL cols (t2 :: ts'))
        from by simp [groupToks]]
      rw [pconj_lp, pneg_lp, plike_lp]
      rw [show (Tok.tlp :: ((orToks cols ++ [Tok.trp]) ++ Tok.tconj :: clauseToksL cols (t2 :: ts'))
        : List Tok) = groupToks cols ++ Tok.tconj :: clauseToksL cols (t2 :: ts')
        from by simp [groupToks]]
      simp only [hgrp]
      simp only [hrec]
      simp [clauseAstL]
      ring

/-- One parser step: disjunction level, input shape unconstrained. -/
theorem pdisj_step (f k : Nat) (ts : List Tok) :
    parseE (f + 1) Lvl.ldisj ts k =
      (match parseE f Lvl.lconj ts k with
       | some (e, Tok.tdisj :: ts1, k1) =>
         (match parseE f Lvl.ldisj ts1 k1 with
          | some (e2, ts2, k2) => some (Expr.eor e e2, ts2, k2)
          | none => none)
       | r => r) := rfl

/-- Parse of the whole generated clause, all tokens consumed. -/
theorem parseClause_clauseToks (cols : List String) (hne : cols ≠ [])
    (terms : List String) (hterms : terms ≠ []) :
    parseClause (clauseToksL cols terms) = some (clauseAstL cols 0 terms) := by
  unfold parseClause
  have hrec := parseE_clauseToks cols hne terms hterms
    (8 * (clauseToksL cols terms).length + 19) 0 (by omega)
  rw [show 8 * (clauseToksL cols terms).length + 20 =
    (8 * (clauseToksL cols terms).length + 19) + 1 from by omega]
  rw [pdisj_step]
  simp only [hrec]

/-- A present column always resolves to a value. -/
theorem colValue_of_mem {cols : List String} {c : String} (h : c ∈ cols) (row : List String) :
    ∃ v, colValue cols row c = some v := by
  unfold colValue
  have hne : cols.findIdx? (fun c' => c' = c) ≠ none := by
    rw [Ne, List.findIdx?_eq_none_iff]
    intro hall
    have := hall c h
    simp at this
  rcases hidx : cols.findIdx? (fun c' => c' = c) with - | i
  · exact absurd hidx hne
  · exact ⟨row.getD i "", by simp [hidx]⟩

/-- Evaluation of one generated `OR` group against a row: true exactly
when some column's value LIKE-matches the shared pattern. -/
theorem evalB_orAst (colsAll row args : List String) (pat : String) :
    ∀ (cols : List String) (k : Nat), cols ≠ [] →
      (∀ c ∈ cols, c ∈ colsAll) →
      (∀ i, i < cols.length → args.getD (k + i) "" = pat) →
      evalB colsAll row args (orAst k cols) =
        some (cols.any (fun c => likeMatch pat ((colValue colsAll row c).getD ""))) := by
  intro cols
  induction cols with
  | nil => intro k h; exact absurd rfl h
  | cons a l ih =>
    intro k _ hsub hargs
    obtain ⟨v, hv⟩ := colValue_of_mem (hsub a (List.mem_cons_self a l)) row
    have hpat : args.getD k "" = pat := by
      have := hargs 0 (by simp)
      simpa using this
    have hpat' : args[k]?.getD "" = pat := by
      rw [← List.getD_eq_getElem?_getD]
      exact hpat
    rcases l with - | ⟨b, l'⟩
    · simp [orAst, evalB, evalV, hv, hpat']
    · have hrec := ih (k + 1) (by simp)
        (fun c hc => hsub c (List.mem_cons_of_mem a hc))
        (fun i hi => by
          have := hargs (i + 1) (by simpa using Nat.succ_lt_succ hi)
          rwa [show k + (i + 1) = k + 1 + i from by omega] at this)
      simp only [orAst, evalB, evalV, hv, hpat', hrec]
      simp [List.any_cons, hv, hpat']

/-- Evaluation of the whole generated clause against a row: the AND over
terms of the OR over columns. -/
theorem evalB_clauseAstL (colsAll row : List String) (cols : List String)
    (hne : cols ≠ []) (hsub : ∀ c ∈ cols, c ∈ colsAll) :
    ∀ (terms : List String), terms ≠ [] → ∀ (args : List String) (k : Nat),
      (∀ j i, j < terms.length → i < cols.length →
        args.getD (k + (j * cols.length + i)) "" = "%" ++ terms.getD j "" ++ "%") →
      evalB colsAll row args (clauseAstL cols k terms) =
        some (terms.all (fun term => cols.any (fun c =>
          likeMatch ("%" ++ term ++ "%") ((colValue colsAll row c).getD "")))) := by
  intro terms
  induction terms with
  | nil => intro h; exact absurd rfl h
  | cons t ts ih =>
    intro _ args k hargs
    have hgrp := evalB_orAst colsAll row args ("%" ++ t ++ "%") cols k hne hsub
      (fun i hi => by
        have := hargs 0 i (by simp) hi
        simpa using this)
    rcases ts with - | ⟨t2, ts'⟩
    · simp only [clauseAstL, hgrp]
      simp
    · have hrec := ih (by simp) args (k + cols.length) (fun j i hj hi => by
        have := hargs (j + 1) i (by simpa using Nat.succ_lt_succ hj) hi
        rwa [show k + ((j + 1) * cols.length + i) =
          k + cols.length + (j * cols.length + i) from by ring] at this)
      simp only [clauseAstL, evalB, hgrp, hrec]
      simp [List.all_cons]

/-- Value of a constant-mapped list at any in-range position. -/
theorem getD_map_const {v d : String} :
    ∀ (l : List String) (i : Nat), i < l.length →
      (l.map (fun _ => v)).getD i d = v := by
  intro l
  induction l with
  | nil => intro i hi; simp at hi
  | cons a l ih =>
    intro i hi
    rcases i with - | i'
    · rfl
    · exact ih i' (by simpa using Nat.succ_lt_succ_iff.mp hi)

/-- Positional value of the generated argument vector: the argument bound
to placeholder `j * |cols| + i` is `%term_j%`. -/
theorem searchArgs_getD (cols : List String) :
    ∀ (terms : List String) (j i : Nat), j < terms.length → i < cols.length →
      (terms.flatMap (fun term => cols.map (fun _ => "%" ++ term ++ "%"))).getD
          (j * cols.length + i) "" =
        "%" ++ terms.getD j "" ++ "%" := by
  intro terms
  induction terms with
  | nil => intro j i hj; simp at hj
  | cons t ts ih =>
    intro j i hj hi
    rw [List.flatMap_cons]
    rcases j with - | j'
    · rw [show (0 : Nat) * cols.length + i = i from by ring]
      rw [List.getD_append _ _ _ _ (by simpa using hi)]
      simpa using getD_map_const cols i hi
    · have hlen : (cols.map (fun _ => "%" ++ t ++ "%")).length = cols.length := by simp
      rw [List.getD_append_right _ _ _ _ (by
        rw [hlen]
        have : cols.length ≤ (j' + 1) * cols.length := by
          calc cols.length = 1 * cols.length := by ring
          _ ≤ (j' + 1) * cols.length := Nat.mul_le_mul_right _ (by omega)
        omega)]
      rw [hlen]
      rw [show (j' + 1) * cols.length + i - cols.length = j' * cols.length + i from by
        have : (j' + 1) * cols.length = j' * cols.length + cols.length := by ring
        omega]
      exact ih j' i (by simpa using Nat.succ_lt_succ_iff.mp hj) hi

/-- Columns referenced by a generated group. -/
theorem mem_colsOf_orAst :
    ∀ (cols : List String) (k : Nat) (x : String),
      x ∈ colsOf (orAst k cols) → x ∈ cols := by
  intro cols
  induction cols with
  | nil => intro k x hx; simp [orAst, colsOf] at hx
  | cons a l ih =>
    intro k x hx
    rcases l with - | ⟨b, l'⟩
    · simp [orAst, colsOf] at hx
      simp [hx]
    · simp only [orAst, colsOf] at hx
      rcases List.mem_append.mp hx with h | h
      · simp at h
        simp [h]
      · exact List.mem_cons_of_mem a (ih (k + 1) x h)

/-- Columns referenced by the generated clause. -/
theorem mem_colsOf_clauseAstL :
    ∀ (terms cols : List String) (k : Nat) (x : String),
      x ∈ colsOf (clauseAstL cols k terms) → x ∈ cols := by
  intro terms
  induction terms with
  | nil => intro cols k x hx; simp [clauseAstL, colsOf] at hx
  | cons t ts ih =>
    intro cols k x hx
    rcases ts with - | ⟨t2, ts'⟩
    · exact mem_colsOf_orAst cols k x hx
    · simp only [clauseAstL, colsOf] at hx
      rcases List.mem_append.mp hx with h | h
      · exact mem_colsOf_orAst cols k x h
      · exact ih cols (k + cols.length) x h

/-- Row filtering agrees with `List.filter` when every row evaluates. -/
theorem filterEval_eq_filter (colsAll args : List String) (e : Expr)
    (pred : List String → Bool)
    (h : ∀ r, evalB colsAll r args e = some (pred r)) :
    ∀ rows : List (List String), filterEval colsAll args e rows = some (rows.filter pred) := by
  intro rows
  induction rows with
  | nil => rfl
  | cons r rs ih =>
    simp only [filterEval, h r, ih, List.filter_cons]

/-- Filtering `_hash` out of the stored column list recovers the data
columns. -/
theorem filter_hash_cols (dataCols : List String) (h : "_hash" ∉ dataCols) :
    (dataCols ++ ["_hash"]).filter (fun c => c ≠ "_hash") = dataCols := by
  rw [List.filter_append]
  have h1 : dataCols.filter (fun c => c ≠ "_hash") = dataCols := by
    rw [List.filter_eq_self]
    intro a ha
    simp only [ne_eq, decide_not, Bool.not_eq_true']
    rw [decide_eq_false_iff_not]
    intro he
    exact h (he ▸ ha)
  have h2 : (["_hash"] : List String).filter (fun c => c ≠ "_hash") = [] := by decide
  rw [h1, h2, List.append_nil]

/-- Claim C4 — corrected.  For a table whose data columns are simple SQL
identifiers, search splits the keyword on whitespace and returns, with the
`_hash` column projected away, exactly the rows for which every term
LIKE-matches some non-`_hash` column — `LIKE` being SQLite's default
CASE-INSENSITIVE (on ASCII) containment, with `%`/`_` in a term acting as
wildcards, not the case-sensitive substring test the claim states (see
the counterexample).  Tables with other column names can error out
instead (claim C10). -/
theorem c4_search_amended (dataCols : List String) (rows : List (List String)) (kw : String)
    (hcols : dataCols ≠ [])
    (hid : ∀ col ∈ dataCols, simpleIdent col = true)
    (hnohash : "_hash" ∉ dataCols)
    (hterms : pySplit kw ≠ []) :
    searchTable ⟨dataCols ++ ["_hash"], rows⟩ kw =
      some ((rows.filter (fun r => (pySplit kw).all (fun term => dataCols.any (fun col =>
        likeMatch ("%" ++ term ++ "%") ((colValue (dataCols ++ ["_hash"]) r col).getD ""))))).map
        (fun r => dataCols.map (fun col => (colValue (dataCols ++ ["_hash"]) r col).getD ""))) := by
  have hfil := filter_hash_cols dataCols hnohash
  have hne : ¬ ((dataCols ++ ["_hash"]).isEmpty = true) := by simp
  unfold searchTable
  simp only [hfil]
  rw [if_neg hne]
  unfold sqlExec
  rw [tokenize_buildWhere dataCols hcols hid (pySplit kw) hterms]
  simp only [parseClause_clauseToks dataCols hcols (pySplit kw) hterms]
  have hcheck : ((colsOf (clauseAstL dataCols 0 (pySplit kw))).all
      (fun s => (dataCols ++ ["_hash"]).contains s)) = true := by
    rw [List.all_eq_true]
    intro x hx
    have hmem := mem_colsOf_clauseAstL (pySplit kw) dataCols 0 x hx
    simpa using List.mem_append_left ["_hash"] hmem
  rw [if_pos hcheck]
  have heval : ∀ r, evalB (dataCols ++ ["_hash"]) r
      ((pySplit kw).flatMap (fun term => dataCols.map (fun _ => "%" ++ term ++ "%")))
      (clauseAstL dataCols 0 (pySplit kw)) =
      some ((pySplit kw).all (fun term => dataCols.any (fun col =>
        likeMatch ("%" ++ term ++ "%") ((colValue (dataCols ++ ["_hash"]) r col).getD "")))) := by
    intro r
    exact evalB_clauseAstL (dataCols ++ ["_hash"]) r dataCols hcols
      (fun c hc => List.mem_append_left _ hc) (pySplit kw) hterms _ 0
      (fun j i hj hi => by
        have := searchArgs_getD dataCols (pySplit kw) j i hj hi
        simpa [Nat.zero_add] using this)
  rw [filterEval_eq_filter _ _ _ _ heval rows]
  rfl

/-- Witness for C4's theorem on a two-column table: case-insensitive hits
on either column, both terms required. -/
theorem c4_search_amended_witness :
    searchTable ⟨["name", "age"] ++ ["_hash"], [["JOHN doe", "30", "h1"], ["john", "22", "h2"]]⟩
        "john doe" =
      some [["JOHN doe", "30"]] := by
  have h := c4_search_amended ["name", "age"] [["JOHN doe", "30", "h1"], ["john", "22", "h2"]]
    "john doe" (by decide) (by decide) (by decide) (by decide)
  rw [h]
  decide

/-- Equation: an unreadable file aborts the batch. -/
theorem import_cons_none {f : File} (st : DBState) (fs : List File)
    (h : f.content = none) :
    import_csvs_to_db st (f :: fs) = (st, true) := by
  unfold import_csvs_to_db
  rw [h]

/-- Equation: a readable file is processed and the loop continues. -/
theorem import_cons_some {f : File} {c : String} (st : DBState) (fs : List File)
    (h : f.content = some c) :
    import_csvs_to_db st (f :: fs) = import_csvs_to_db (processFile st f c).1 fs := by
  simp [import_csvs_to_db, h]

/-- A batch whose every file already has a current ledger entry is one
long skip: the state comes back untouched and nothing is raised. -/
theorem c2_noop_aux :
    ∀ (fs : List File) (st : DBState),
      (∀ f ∈ fs, f.content ≠ none) →
      (∀ f ∈ fs, ∀ c, f.content = some c →
        st.ledger.contains (f.name, fileHash c) = true) →
      import_csvs_to_db st fs = (st, false)
  | [], _, _, _ => rfl
  | g :: fs, st, hread, hcov => by
    rcases hc : g.content with - | cg
    · exact absurd hc (hread g (List.mem_cons_self _ _))
    · rw [import_cons_some st fs hc,
        processFile_skip (hcov g (List.mem_cons_self _ _) cg hc)]
      exact c2_noop_aux fs st (fun f hf => hread f (List.mem_cons_of_mem _ hf))
        (fun f hf c hfc => hcov f (List.mem_cons_of_mem _ hf) c hfc)

/-- Counterexample to claim C2 as stated: an unchanged folder of three
readable, distinctly named files whose first run completes without an
uncaught error, yet whose second run INSERTS A ROW.  `t_t.csv` and
`t-t.csv` collide on the table name `csv_table_t_t`; the first creates it
four columns wide by fallback without recording a column count, the
second's fallback — five columns wide while `common_column_count` is
empty — hits SQLite's `no column named column_5` error in `to_sql` and
fails, and `c.csv` then records `common_column_count = [3]`.  On the
second run `t-t.csv` is re-processed (no ledger entry), its fallback now
truncates to three columns, the insert fits the table, and the row count
of `csv_table_t_t` rises from 1 to 2. -/
theorem c2_counterexample :
    generate_table_name exC2b.name = generate_table_name exC2a.name ∧
    (import_csvs_to_db st0 [exC2a, exC2b, exC2c]).2 = false ∧
    (import_csvs_to_db (import_csvs_to_db st0 [exC2a, exC2b, exC2c]).1
      [exC2a, exC2b, exC2c]).2 = false ∧
    (tableLookup (import_csvs_to_db st0 [exC2a, exC2b, exC2c]).1
      "csv_table_t_t").map (fun t => t.rows.length) = some 1 ∧
    (tableLookup (import_csvs_to_db (import_csvs_to_db st0 [exC2a, exC2b, exC2c]).1
        [exC2a, exC2b, exC2c]).1 "csv_table_t_t").map (fun t => t.rows.length) = some 2 :=
  ⟨by decide, by decide, by decide, by decide, by decide⟩

/-- Claim C2 — corrected.  Re-importing an unchanged folder is a no-op
exactly when the previous run left every file with a current ledger
entry, i.e. every file completed (was imported, fallback-imported or
skipped): each file then matches the hash check of lines 55-59, is
skipped, and the whole second run returns the state untouched with
nothing raised — zero inserted rows.  Without that proviso the claim
fails: a file that FAILED on the first run has no ledger entry, is
re-processed, and can then insert rows, because `common_column_count[0]`
differs between the runs (see the counterexample). -/
theorem c2_idempotent_amended (st : DBState) (files : List File)
    (hread : ∀ f ∈ files, f.content ≠ none)
    (hcov : ∀ f ∈ files, ∀ c, f.content = some c →
      st.ledger.contains (f.name, fileHash c) = true) :
    import_csvs_to_db st files = (st, false) ∧
    (∀ st' : DBState, ∀ f : File, ∀ c : String,
      st'.ledger.contains (f.name, fileHash c) = true →
      processFile st' f c = (st', Outcome.skipped)) :=
  ⟨c2_noop_aux files st hread hcov, fun _ _ _ h => processFile_skip h⟩

/-- Witness for C2's theorem: a folder whose one file is already
ledgered comes back from the import untouched. -/
theorem c2_idempotent_amended_witness :
    import_csvs_to_db exC2st [exF5good] = (exC2st, false) ∧
    (∀ st' : DBState, ∀ f : File, ∀ c : String,
      st'.ledger.contains (f.name, fileHash c) = true →
      processFile st' f c = (st', Outcome.skipped)) :=
  c2_idempotent_amended exC2st [exF5good] (by decide)
    (by
      intro f hf c hfc
      have hfe : f = exF5good := by simpa using hf
      subst hfe
      have hce : c = "x,y\n1,2" := by
        have hsome : some "x,y\n1,2" = some c := hfc
        exact (Option.some.inj hsome).symm
      subst hce
      decide)

end AnyCSV
